import Mathlib

/-!
# Feature-to-Grid Resolution & Validation Engine — shallow embedding

A shallow embedding of the core logic of `processors/FeatureProcessor.py`,
`postprocessors/SuperpositionCheck.py` and `SummaryInfo.py`.

Python `dict`s are insertion-ordered, so they are modelled as association
lists: assignment to an existing key replaces the value in place, assignment
to a fresh key appends the binding at the end.  Python's `sorted` is a stable
sort, modelled by `List.insertionSort`.  Stateful methods become pure
state-passing functions on explicit state structures.
-/

set_option linter.unusedSectionVars false

namespace GeoLink

/-- Lookup in an insertion-ordered association list (a Python `dict`):
returns the value at the first matching key, `none` when absent. -/
def lookupA {α β : Type} [DecidableEq α] : List (α × β) → α → Option β
  | [], _ => none
  | (k, v) :: l, k' => if k' = k then some v else lookupA l k'

/-- Assignment `d[k] = v` on a Python `dict`: replaces the value in place when the key
is present, appends the new binding at the end otherwise. -/
def insertA {α β : Type} [DecidableEq α] : List (α × β) → α → β → List (α × β)
  | [], k, v => [(k, v)]
  | (k₀, v₀) :: l, k, v => if k = k₀ then (k₀, v) :: l else (k₀, v₀) :: insertA l k v

/-- The keys of an association list, in insertion order. -/
def keysA {α β : Type} (l : List (α × β)) : List α := l.map Prod.fst

/-! ## Data model (`FeatureProcessor.py`)

A grid cell is keyed by `(row, col)`.  One intersection fragment contributes
a candidate carrying a feature `name`, the configured ordering metric
(`area` or `length` in the source, a single `metric` field here since each
processor fixes one ordering field), the backend `cell_id` and the owning
`map_name`. -/

/-- Grid-cell key `(row, col)` (the `Cell` namedtuple of the source). -/
structure Cell where
  row : Int
  col : Int
deriving DecidableEq, Repr

/-- Per-candidate data stored in `FeatureProcess.cells[cell][area_name]`:
`metric` models the configured ordering field (`data[by_field]`). -/
structure CandData where
  name : String
  metric : Int
  cell_id : Int
  map_name : String
deriving DecidableEq, Repr

instance : Inhabited CandData := ⟨⟨"", 0, 0, ""⟩⟩

/-- One resolved record of `FeatureProcess.cell_ids[cell]`. -/
structure CellRecord where
  number_of_data : Nat
  cell_id : Int
  row : Int
  col : Int
  data : List CandData
deriving DecidableEq, Repr

/-- Inner per-cell dictionary: feature name ↦ accumulated candidate data. -/
abbrev InnerCells := List (String × CandData)

/-- The dict `FeatureProcess.cells`: cell ↦ (feature name ↦ candidate data). -/
abbrev CellsMap := List (Cell × InnerCells)

/-! ## Ordering criteria (`_cell_order_criteria_default`)

`sorted(area_targets.items(), key=lambda x: x[1][by_field], reverse=True)`
is a stable descending sort on the metric of the dictionary values;
`List.insertionSort` with the reflexive-total relation `metric ≥ metric`
is exactly that stable sort. -/

/-- The comparison used by `sorted(..., reverse=True)` on `(name, data)`
items: earlier item stays in front iff its metric is ≥ the later one. -/
def itemGE (x y : String × CandData) : Prop := y.2.metric ≤ x.2.metric

instance : DecidableRel itemGE := fun x y => inferInstanceAs (Decidable (y.2.metric ≤ x.2.metric))

instance : IsTotal (String × CandData) itemGE :=
  ⟨fun x y => le_total y.2.metric x.2.metric⟩

instance : IsTrans (String × CandData) itemGE :=
  ⟨fun _ _ _ h₁ h₂ => le_trans h₂ h₁⟩

/-- Method `FeatureProcess._cell_order_criteria_default`: the cell's candidate items
sorted by the configured metric descending (stable), projected to the data. -/
def cell_order_criteria_default (cell : Cell) (cells_dict : CellsMap) : List CandData :=
  let area_targets := (lookupA cells_dict cell).getD []
  let area_targets_sorted := List.insertionSort itemGE area_targets
  area_targets_sorted.map Prod.snd

/-- Example cell for the ordering-determinism scenario of the spec. -/
def exC3Cell : Cell := ⟨1, 1⟩

/-- Candidates with metrics `[5, 5, 9]` for names `["x", "y", "z"]`,
inserted in that order. -/
def exC3Cells : CellsMap :=
  [(exC3Cell, [("x", ⟨"x", 5, 10, "m"⟩), ("y", ⟨"y", 5, 11, "m"⟩), ("z", ⟨"z", 9, 12, "m"⟩)])]

/-! ## Diagnostics and process-trail entries -/

/-- Diagnostics Ledger entry.  Modelled from the spec: `utils/Errors.py`'s
`ErrorManager` is not among the sources; per spec §4.5 and §3 an entry
records a message, a feature type, a code and a severity flag, and the
ledger is append-only with queries filtered by type/code. -/
structure Entry where
  msg : String
  typ : String
  code : String
  is_warn : Bool
deriving DecidableEq, Repr

/-- One Process Trail line (`SummaryInfo.process_lines` element). -/
structure PLine where
  line : String
  status : String
deriving DecidableEq, Repr

/-! ## Aggregator state (`FeatureProcess`) -/

/-- The mutable state of one `FeatureProcess` instance that the embedded
methods read and write: the accumulation dict `cells`, the resolved dict
`cell_ids`, the name→maps index `_features_by_map`, the shared error
ledger and the summary's process trail. -/
structure FState where
  cells : CellsMap
  cell_ids : List (Cell × CellRecord)
  features_by_map : List (String × List String)
  errors : List Entry
  process_lines : List PLine
deriving DecidableEq, Repr

/-- The `cells`-dict transformation performed by `FeatureProcess._set_cell`:
if the `(cell, area_name)` pair exists, the configured metric field is
summed in place (`self.cells[cell][area_name][by_field] += data[by_field]`);
an existing cell gains a new name entry; a fresh cell first gets an empty
inner dict which is then assigned the entry. -/
def set_cell_cells (cells : CellsMap) (cell : Cell) (area_name : String)
    (data : CandData) : CellsMap :=
  match lookupA cells cell with
  | some inner =>
    match lookupA inner area_name with
    | some old =>
      insertA cells cell (insertA inner area_name { old with metric := old.metric + data.metric })
    | none => insertA cells cell (insertA inner area_name data)
  | none => insertA cells cell [(area_name, data)]

/-- Method `FeatureProcess._set_cell` as a state transformer (it only mutates
`self.cells`). -/
def set_cell (s : FState) (cell : Cell) (area_name : String) (data : CandData) : FState :=
  { s with cells := set_cell_cells s.cells cell area_name data }

/-- Indexing `area_targets_ordered[0]['cell_id']`: the source indexes position 0,
always populated because every inner dict stores at least one candidate
(the unreachable empty case maps to 0). -/
def headCellId : List CandData → Int
  | [] => 0
  | c :: _ => c.cell_id

/-- The record stored in `self.cell_ids[cell]` by
`FeatureProcess._set_cell_by_criteria`. -/
def mk_cell_record (cell : Cell) (cells_dict : CellsMap) : CellRecord :=
  let area_targets_ordered := cell_order_criteria_default cell cells_dict
  { number_of_data := area_targets_ordered.length
    cell_id := headCellId area_targets_ordered
    row := cell.row
    col := cell.col
    data := area_targets_ordered }

/-- Folding `insertA` of key-determined values over a key list: the shape of
the `for cell in self.cells` loop of `_set_cell_by_criteria`. -/
def resolveFold {α β : Type} [DecidableEq α] (g : α → β) (ks : List α)
    (ci : List (α × β)) : List (α × β) :=
  ks.foldl (fun a k => insertA a k (g k)) ci

/-- Method `FeatureProcess._set_cell_by_criteria` with the default ordering
criteria: for every cell of the accumulation dict (in insertion order),
store — overwriting in place — the resolved record in `self.cell_ids`. -/
def set_cell_by_criteria (s : FState) : FState :=
  { s with
    cell_ids := resolveFold (fun c => mk_cell_record c s.cells) (keysA s.cells) s.cell_ids }

/-- Lookup of the accumulated candidate of feature `nm` at `cell`. -/
def cellLookup (cells : CellsMap) (cell : Cell) (nm : String) : Option CandData :=
  match lookupA cells cell with
  | some inner => lookupA inner nm
  | none => none

/-- One accumulation request `(cell, feature name, fragment data)`. -/
abbrev AccOp := Cell × String × CandData

/-- A sequence of `_set_cell` calls. -/
def apply_accums (s : FState) (ops : List AccOp) : FState :=
  ops.foldl (fun t op => set_cell t op.1 op.2.1 op.2.2) s

/-- The corresponding pure `cells` transformation. -/
def accum_cells (cells : CellsMap) (ops : List AccOp) : CellsMap :=
  ops.foldl (fun cs op => set_cell_cells cs op.1 op.2.1 op.2.2) cells

/-- Well-formedness of reachable aggregator states: the outer dict has no
duplicate keys, every inner dict is non-empty with no duplicate keys, and
the keys of `cell_ids` are exactly the first `cell_ids.length` keys of
`cells` in order (resolution writes them in `cells` iteration order and
accumulation only ever appends new cells at the end). -/
def GoodS (s : FState) : Prop :=
  (keysA s.cells).Nodup ∧
  (∀ p ∈ s.cells, (keysA p.2).Nodup ∧ p.2 ≠ []) ∧
  keysA s.cell_ids = (keysA s.cells).take s.cell_ids.length

instance (s : FState) : Decidable (GoodS s) := by
  unfold GoodS
  infer_instance

/-- Empty aggregator state: a fresh `FeatureProcess` instance. -/
def emptyFState : FState := ⟨[], [], [], [], []⟩

/-- A small populated aggregator state used by the concrete witnesses. -/
def exAggState : FState :=
  apply_accums emptyFState
    [(⟨0, 0⟩, "a", ⟨"a", 2, 5, "m"⟩), (⟨0, 1⟩, "b", ⟨"b", 3, 6, "m"⟩)]

/-- Method `FeatureProcess.get_cell_data_by_map`: the resolved candidates of `cell`
whose `map_name` equals the requested map, in resolved order; the guarded
access (`if cell in self.cell_ids`) makes unknown cells yield `[]`.  A pure
query: the source method assigns no attribute. -/
def get_cell_data_by_map (s : FState) (map_name : String) (cell : Cell) : List CandData :=
  match lookupA s.cell_ids cell with
  | some r => r.data.filter (fun d => decide (d.map_name = map_name))
  | none => []

/-- Method `FeatureProcess.get_cell_id_data`: the resolved record of `cell`, or
`None` (`data = None`; `if cell in self.cell_ids` guards the access). -/
def get_cell_id_data (s : FState) (cell : Cell) : Option CellRecord :=
  lookupA s.cell_ids cell

/-! ## Record Builder (`get_data_to_save`, main-map branch) -/

/-- The capacity warning text of `get_data_to_save` (`main_data=True`). -/
def capacityMsg (cell : Cell) (main_map : String) (found cols_number : Nat) : String :=
  let r := toString cell.row
  let c := toString cell.col
  let n := toString found
  let m := toString cols_number
  "Error en la [celda=(r=" ++ r ++ ", c=" ++ c ++ ")] para mapa [" ++ main_map ++
    "]. El numero a almacenar es [" ++ n ++ "], pero no debe ser mayor que [" ++ m ++
    "]. Se considera sólo [" ++ m ++ "]"

/-- The column dict built by the main-map branch: the comprehension
`dict([(col_names[i], col_data[i]['name']) for i in range(values_to_save)])`
followed by the padding loop
`for j in range(cols_number-values_to_save): data[col_names[cols_number-(j+1)]] = ''`. -/
def build_main_data (col_data : List CandData) (col_names : List String)
    (cols_number : Nat) : List (String × String) :=
  let values_to_save := min cols_number col_data.length
  let data0 := (List.range values_to_save).foldl
    (fun d i => insertA d (col_names.getD i "") ((col_data.getD i default).name)) []
  (List.range (cols_number - values_to_save)).foldl
    (fun d j => insertA d (col_names.getD (cols_number - (j + 1)) "") "") data0

/-- Method `FeatureProcess.get_data_to_save` with `main_data=True`.  The config
lookups of the source become parameters: `main_map` (the imported main map
name), `col_names` (`get_column_to_export`), `cols_number`
(`get_columns_to_save`), `is_demand_site`
(`self.__class__.__name__ == 'DemandSiteProcess'`) and `ft`
(`self.config.type_names[self.__class__.__name__]`).  Returns the updated
state — `append_error(..., is_warn=True)` appends one warning entry with
empty code to the ledger (ledger append modelled from the spec §4.5, the
concrete `ErrorManager` being external) — together with the built dict. -/
def get_data_to_save_main (s : FState) (cell : Cell) (main_map : String)
    (col_names : List String) (cols_number : Nat) (is_demand_site : Bool)
    (ft : String) : FState × List (String × String) :=
  let col_data := get_cell_data_by_map s main_map cell
  if col_data ≠ [] then
    (if col_data.length > cols_number ∧ is_demand_site then
      { s with errors := s.errors ++
          [⟨capacityMsg cell main_map col_data.length cols_number, ft, "", true⟩] }
    else s,
    build_main_data col_data col_names cols_number)
  else
    (s, (List.range cols_number).foldl (fun d i => insertA d (col_names.getD i "") "") [])

/-- A resolved state with two candidates at cell `(0, 0)` for map `"m"`:
the capacity scenario with 3-vs-2 scaled down to 2-vs-1. -/
def exC1State : FState :=
  set_cell_by_criteria (apply_accums emptyFState
    [(⟨0, 0⟩, "a", ⟨"a", 2, 5, "m"⟩), (⟨0, 0⟩, "b", ⟨"b", 3, 5, "m"⟩)])

/-! ## Superposition (Connectivity) Checker (`SuperpositionCheck.py`) -/

/-- A reference-topology node as stored in `self.nodes`: the checker reads
its `type_id` and `name`. -/
structure SNode where
  type_id : Int
  name : String
deriving DecidableEq, Repr

/-- A reference-topology arc; `src_id`/`dst_id` may be absent (`None`). -/
structure SArc where
  src_id : Option Int
  dst_id : Option Int
deriving DecidableEq, Repr

/-- The `SuperpositionCheck` state: the two configured node-type ids, the
connection graph, the relevant-node lookup and the accumulated error pairs
(`connection_error` values are Python sets, modelled as duplicate-free
lists in insertion order). -/
structure SCState where
  base_feature_type_id : Int
  secondary_feature_type_id : Int
  connections : List (String × List String)
  nodes : List (Int × SNode)
  connection_error : List (String × List String)
deriving DecidableEq, Repr

/-- Method `SuperpositionCheck.set_connection`: append the secondary name under the
base name (`self.connections.get(...)` truthiness makes `None` and an empty
list both start a fresh singleton — with identical results). -/
def set_connection (st : SCState) (base_info secondary_info : SNode) : SCState :=
  let cur := (lookupA st.connections base_info.name).getD []
  if cur ≠ [] then
    { st with connections :=
        insertA st.connections base_info.name (cur ++ [secondary_info.name]) }
  else
    { st with connections := insertA st.connections base_info.name [secondary_info.name] }

/-- The body of `SuperpositionCheck.check_connection`, as a function of the
connection graph it reads. -/
def check_connection_conns (conns : List (String × List String))
    (base_name secondary_name : String) : Bool :=
  let cur := (lookupA conns base_name).getD []
  if cur ≠ [] then decide (secondary_name ∈ cur) else false

/-- Method `SuperpositionCheck.check_connection`. -/
def check_connection (st : SCState) (base_name secondary_name : String) : Bool :=
  check_connection_conns st.connections base_name secondary_name

/-- Method `SuperpositionCheck.add_error`: ensure a set exists under the base name,
then add the secondary name to it. -/
def add_error (st : SCState) (base_element super_element : String) : SCState :=
  let cur := (lookupA st.connection_error base_element).getD []
  let grown := if super_element ∈ cur then cur else cur ++ [super_element]
  if cur ≠ [] then
    { st with connection_error := insertA st.connection_error base_element grown }
  else
    { st with connection_error := insertA st.connection_error base_element [super_element] }

/-- Method `SuperpositionCheck.node_init_operation`: keep only nodes whose type id
is one of the two configured feature type ids. -/
def node_init_operation (st : SCState) (node_id : Int) (node : SNode) : SCState :=
  if node.type_id = st.base_feature_type_id ∨
      node.type_id = st.secondary_feature_type_id then
    { st with nodes := insertA st.nodes node_id node }
  else st

/-- Method `SuperpositionCheck.arc_check_operation`: for an arc with two truthy
endpoint ids both present in the relevant-node lookup, record a connection
from the base-type endpoint's name to the secondary-type endpoint's name,
whichever direction the arc points. -/
def arc_check_operation (st : SCState) (arc : SArc) : SCState :=
  match arc.src_id, arc.dst_id with
  | some src_id, some dst_id =>
    if src_id ≠ 0 ∧ dst_id ≠ 0 then
      match lookupA st.nodes src_id, lookupA st.nodes dst_id with
      | some ns, some nd =>
        if ns.type_id = st.base_feature_type_id ∧
            nd.type_id = st.secondary_feature_type_id then
          set_connection st ns nd
        else if ns.type_id = st.secondary_feature_type_id ∧
            nd.type_id = st.base_feature_type_id then
          set_connection st nd ns
        else st
      | _, _ => st
    else st
  | _, _ => st

/-- Method `SuperpositionCheck.cell_check_operation`: for every (base, secondary)
name pair present in the cell, record an error when no connection exists.
The two name lists are the results of `get_cell_feature_names`, which lives
in the parent `Check` class (not among the sources); modelled from the
spec: "for every grid cell, retrieve the set of base-feature names and
secondary-feature names present in that cell" — they are taken as inputs. -/
def cell_check_operation (st : SCState) (base_element secondary_element : List String) :
    SCState :=
  base_element.foldl (fun st1 base_name =>
    secondary_element.foldl (fun st2 secondary_name =>
      if check_connection st2 base_name secondary_name then st2
      else add_error st2 base_name secondary_name) st1) st

/-- The pair `(b, s)` is recorded in `connection_error`. -/
def memErr (st : SCState) (b s_ : String) : Prop :=
  s_ ∈ (lookupA st.connection_error b).getD []

instance (st : SCState) (b s_ : String) : Decidable (memErr st b s_) := by
  unfold memErr
  infer_instance

/-- A concrete checker state: base type 1, secondary type 2, nodes
`CatchA` (base) and `GW1` (secondary), no connections yet. -/
def exSCState : SCState :=
  { base_feature_type_id := 1
    secondary_feature_type_id := 2
    connections := []
    nodes := [(7, ⟨1, "CatchA"⟩), (8, ⟨2, "GW1"⟩)]
    connection_error := [] }

/-! ## Diagnostics Ledger queries and message templates -/

/-- Modelled from the spec: `ErrorManager.get_errors` restricted to a code —
"query(type, code): returns all entries ... whose code matches code or code
filter is empty" (§4.5), with the error/warning severity split used by
`SummaryInfo.get_errors`/`get_warnings`.  The claims need the code filter
only, so the type filter is not modelled. -/
def getErrorsL (errors : List Entry) (code : String) : List Entry :=
  errors.filter (fun e => decide (e.is_warn = false ∧ (code = "" ∨ e.code = code)))

/-- Modelled from the spec: `ErrorManager.check_errors` — "hasErrors(...):
boolean existence check" (§4.5). -/
def checkErrorsL (errors : List Entry) (code : String) : Bool :=
  decide (getErrorsL errors code ≠ [])

/-- One piece of a named message template: a literal or a named parameter.
Modelled from the spec: `ConfigApp.get_process_msg` supplies named
templates which `str.format(**kwargs)` expands (§4.5). -/
inductive TPart
  | lit (s : String)
  | arg (name : String)
deriving DecidableEq, Repr

/-- A named message template. -/
abbrev Tmpl := List TPart

/-- Template expansion (`msg_info.format(**args_dict)`); a parameter not
among the arguments expands to the empty string. -/
def expandT (t : Tmpl) (args : List (String × String)) : String :=
  t.foldl (fun acc part =>
    acc ++ match part with
    | TPart.lit s => s
    | TPart.arg n => (lookupA args n).getD "") ""

/-- Method `FeatureProcess.append_error(msg=..., typ=..., code=...)` with the
default `is_warn=False`: one ERROR entry appended to the shared ledger
(ledger append modelled from the spec §4.5). -/
def append_error_f (s : FState) (msg typ code : String) : FState :=
  { s with errors := s.errors ++ [⟨msg, typ, code, false⟩] }

/-- Call `self.summary.set_process_line(msg_name=..., check_error=..., **kwargs)`
as performed by the processor's check methods on its summary's trail. -/
def set_process_line_f (cfg : String → Tmpl) (s : FState) (msg_name : String)
    (check_error : Bool) (args : List (String × String)) : FState :=
  { s with process_lines := s.process_lines ++
      [⟨expandT (cfg msg_name) args, if check_error then "ERROR" else "OK"⟩] }

/-- Python truthiness of an optional integer id (`if not feature_id`):
`None` and `0` are both falsy. -/
def truthyId : Option Int → Bool
  | none => false
  | some n => n != 0

/-- The code-"10" message of `check_names_with_geo`. -/
def msg10 (feature_name map_names : String) : String :=
  "El nombre [" ++ feature_name ++ "] en los mapas [" ++ map_names ++
    "] no existe en las geometrias bases de arcos y nodos."

/-- The code-"11" message of `check_names_between_maps`. -/
def msg11 (feature_name map_names : String) : String :=
  "El nombre [" ++ feature_name ++ "] se encuentra en mas de un mapa ([" ++ map_names ++
    "]) al mismo tiempo."

/-- Method `FeatureProcess.check_names_with_geo`.  `geoIds` models the abstract
`get_feature_id_by_name` (subclass-provided; per spec §6 the reference
topology exposes `elementIdByName(name) -> id | none`); the preceding
`set_data_from_geo`/`set_feature_names_in_maps` population of the
name→maps index is GIS-external, so the index is read from the state.
`if not feature_id` is Python truthiness: `None` and `0` are both falsy. -/
def check_names_with_geo (cfg : String → Tmpl) (geoIds : String → Option Int)
    (ft : String) (s : FState) : FState × Bool × List Entry :=
  let s1 := s.features_by_map.foldl (fun st p =>
    if truthyId (geoIds p.1) then st
    else append_error_f st (msg10 p.1 (String.intercalate ", " p.2)) ft "10") s
  let s2 := set_process_line_f cfg s1 "check_names_with_geo" (checkErrorsL s1.errors "10") []
  (s2, checkErrorsL s2.errors "10", getErrorsL s2.errors "10")

/-- Method `FeatureProcess.check_names_between_maps`: one code-"11" error per
feature name owned by more than one map, naming the feature and the joined
map set. -/
def check_names_between_maps (cfg : String → Tmpl) (ft : String) (s : FState) :
    FState × Bool × List Entry :=
  let check_maps := s.features_by_map.filter (fun p => p.2.length > 1)
  let s1 := check_maps.foldl (fun st p =>
    append_error_f st (msg11 p.1 (String.intercalate ", " p.2)) ft "11") s
  let s2 := set_process_line_f cfg s1 "check_names_between_maps"
    (checkErrorsL s1.errors "11") []
  (s2, checkErrorsL s2.errors "11", getErrorsL s2.errors "11")

/-- The uniqueness-check scenario: `RiverA` in two maps, `Solo` in one. -/
def exC7State : FState :=
  { cells := []
    cell_ids := []
    features_by_map := [("RiverA", ["rivers_main", "rivers_alt"]), ("Solo", ["only_map"])]
    errors := []
    process_lines := [] }

/-- A trivial template table for the witnesses. -/
def exCfg : String → Tmpl := fun _ => []

/-- The existence-check scenario: `Known` resolves in the topology,
`Ghost` does not. -/
def exC8State : FState :=
  { cells := []
    cell_ids := []
    features_by_map := [("Known", ["m1"]), ("Ghost", ["m2"])]
    errors := []
    process_lines := [] }

/-- Topology name→id lookup for the witness. -/
def exGeoIds : String → Option Int := fun n => if n = "Known" then some 3 else none

/-! ## Process Trail (`SummaryInfo.py`) -/

/-- The state of one `SummaryInfo` instance.  `prefix_str` is the source's
`prefix` attribute. -/
structure SIState where
  prefix_str : String
  input_params : List (String × String)
  process_lines : List PLine
  errors : List Entry
deriving DecidableEq, Repr

/-- Method `SummaryInfo.set_process_line`: expand the named configuration template
with the keyword arguments, tag ERROR/OK from `check_error`, and append the
line to the trail. -/
def summary_set_process_line (cfg : String → Tmpl) (st : SIState) (msg_name : String)
    (check_error : Bool) (args : List (String × String)) : SIState :=
  let msg_info := expandT (cfg msg_name) args
  let status := if check_error then "ERROR" else "OK"
  { st with process_lines := st.process_lines ++ [⟨msg_info, status⟩] }

/-- Method `SummaryInfo.append_error` for a single message: an empty `typ` (falsy)
defaults to the instance prefix; the entry goes to the shared ledger. -/
def summary_append_error (st : SIState) (msg typ : String) (is_warn : Bool)
    (code : String) : SIState :=
  let t := if typ = "" then st.prefix_str else typ
  { st with errors := st.errors ++ [⟨msg, t, code, is_warn⟩] }

/-- The mutating `SummaryInfo` operations (`set_input_params` is a loop of
`set_input_param`s; `get_*`/`print_*` read without mutating, and
`get_process_lines(with_ui=True)` builds a decorated copy without touching
`self.process_lines`). -/
inductive SIOp
  | setProcessLine (msg_name : String) (check_error : Bool) (args : List (String × String))
  | setInputParam (param_name param_value : String)
  | appendErrorMsg (msg typ : String) (is_warn : Bool) (code : String)
  | appendErrorMsgs (msgs : List String) (typ : String) (is_warn : Bool) (code : String)
deriving DecidableEq, Repr

/-- One `SummaryInfo` method call. -/
def si_step (cfg : String → Tmpl) (st : SIState) : SIOp → SIState
  | SIOp.setProcessLine n f a => summary_set_process_line cfg st n f a
  | SIOp.setInputParam n v => { st with input_params := insertA st.input_params n v }
  | SIOp.appendErrorMsg m t w c => summary_append_error st m t w c
  | SIOp.appendErrorMsgs ms t w c => ms.foldl (fun s2 m => summary_append_error s2 m t w c) st

/-- A call sequence on one `SummaryInfo` instance. -/
def si_run (cfg : String → Tmpl) (st : SIState) (ops : List SIOp) : SIState :=
  ops.foldl (si_step cfg) st

/-- Method `SummaryInfo.get_process_lines` with the default `with_ui=False`:
returns the trail itself, in append order. -/
def get_process_lines (st : SIState) : List PLine := st.process_lines

/-- The trail line a call appends, if any. -/
def expected_line (cfg : String → Tmpl) : SIOp → Option PLine
  | SIOp.setProcessLine n f a =>
    some ⟨expandT (cfg n) a, if f then "ERROR" else "OK"⟩
  | _ => none


section AListLemmas

variable {α β : Type} [DecidableEq α]

@[simp] theorem lookupA_nil (k : α) : lookupA ([] : List (α × β)) k = none := rfl

theorem lookupA_cons (k₀ : α) (v₀ : β) (l : List (α × β)) (k : α) :
    lookupA ((k₀, v₀) :: l) k = if k = k₀ then some v₀ else lookupA l k := rfl

theorem lookupA_insertA_self (l : List (α × β)) (k : α) (v : β) :
    lookupA (insertA l k v) k = some v := by
  induction l with
  | nil => simp [insertA, lookupA]
  | cons p l ih =>
    obtain ⟨k₀, v₀⟩ := p
    by_cases h : k = k₀
    · simp [insertA, lookupA, h]
    · simp [insertA, lookupA, h, ih]

theorem lookupA_insertA_ne (l : List (α × β)) (k k' : α) (v : β) (h : k' ≠ k) :
    lookupA (insertA l k v) k' = lookupA l k' := by
  induction l with
  | nil => simp [insertA, lookupA, h]
  | cons p l ih =>
    obtain ⟨k₀, v₀⟩ := p
    by_cases hk : k = k₀
    · subst hk
      simp [insertA, lookupA, h]
    · by_cases hk' : k' = k₀
      · simp [insertA, lookupA, hk, hk']
      · simp [insertA, lookupA, hk, hk', ih]

theorem keysA_nil : keysA ([] : List (α × β)) = [] := rfl

theorem keysA_cons (p : α × β) (l : List (α × β)) :
    keysA (p :: l) = p.1 :: keysA l := rfl

theorem keysA_append (l₁ l₂ : List (α × β)) :
    keysA (l₁ ++ l₂) = keysA l₁ ++ keysA l₂ := by
  simp [keysA]

theorem mem_keysA_iff_lookupA_isSome (l : List (α × β)) (k : α) :
    k ∈ keysA l ↔ (lookupA l k).isSome := by
  induction l with
  | nil => simp [keysA, lookupA]
  | cons p l ih =>
    obtain ⟨k₀, v₀⟩ := p
    rw [keysA_cons, List.mem_cons, lookupA_cons]
    by_cases h : k = k₀
    · simp [h]
    · simp [h, ih]

theorem lookupA_eq_none_of_not_mem_keysA (l : List (α × β)) (k : α)
    (h : k ∉ keysA l) : lookupA l k = none := by
  have := (mem_keysA_iff_lookupA_isSome l k).not
  rw [this] at h
  cases hl : lookupA l k with
  | none => rfl
  | some v => exact absurd (by simp [hl]) h

theorem keysA_insertA_of_mem (l : List (α × β)) (k : α) (v : β)
    (h : k ∈ keysA l) : keysA (insertA l k v) = keysA l := by
  induction l with
  | nil => simp [keysA] at h
  | cons p l ih =>
    obtain ⟨k₀, v₀⟩ := p
    by_cases hk : k = k₀
    · simp [insertA, hk, keysA]
    · have hmem : k ∈ keysA l := by
        simpa [keysA, hk] using h
      simp [insertA, hk, keysA_cons, ih hmem]

theorem insertA_of_not_mem_keysA (l : List (α × β)) (k : α) (v : β)
    (h : k ∉ keysA l) : insertA l k v = l ++ [(k, v)] := by
  induction l with
  | nil => simp [insertA]
  | cons p l ih =>
    obtain ⟨k₀, v₀⟩ := p
    have hk : k ≠ k₀ := by
      intro hkk
      exact h (by simp [keysA, hkk])
    have hmem : k ∉ keysA l := fun hm => h (by simp [keysA] at hm ⊢; exact Or.inr hm)
    simp [insertA, hk, ih hmem]

theorem keysA_insertA_of_not_mem (l : List (α × β)) (k : α) (v : β)
    (h : k ∉ keysA l) : keysA (insertA l k v) = keysA l ++ [k] := by
  rw [insertA_of_not_mem_keysA l k v h, keysA_append]
  rfl

theorem insertA_eq_self_of_lookupA (l : List (α × β)) (k : α) (v : β)
    (h : lookupA l k = some v) : insertA l k v = l := by
  induction l with
  | nil => simp [lookupA] at h
  | cons p l ih =>
    obtain ⟨k₀, v₀⟩ := p
    by_cases hk : k = k₀
    · rw [lookupA_cons, if_pos hk] at h
      obtain rfl : v₀ = v := by injection h
      simp [insertA, hk]
    · rw [lookupA_cons, if_neg hk] at h
      simp [insertA, hk, ih h]

theorem mem_of_mem_insertA (l : List (α × β)) (k : α) (v : β) (p : α × β)
    (h : p ∈ insertA l k v) : p ∈ l ∨ p = (k, v) := by
  induction l with
  | nil => simpa [insertA] using h
  | cons q l ih =>
    obtain ⟨k₀, v₀⟩ := q
    by_cases hk : k = k₀
    · subst hk
      simp only [insertA, if_pos rfl] at h
      rcases List.mem_cons.mp h with h | h
      · exact Or.inr (by simp [h])
      · exact Or.inl (List.mem_cons.mpr (Or.inr h))
    · simp only [insertA, if_neg hk] at h
      rcases List.mem_cons.mp h with h | h
      · exact Or.inl (List.mem_cons.mpr (Or.inl h))
      · rcases ih h with h' | h'
        · exact Or.inl (List.mem_cons.mpr (Or.inr h'))
        · exact Or.inr h'

theorem lookupA_eq_some_of_mem_nodup (l : List (α × β)) (k : α) (v : β)
    (hmem : (k, v) ∈ l) (hnd : (keysA l).Nodup) : lookupA l k = some v := by
  induction l with
  | nil => simp at hmem
  | cons p l ih =>
    obtain ⟨k₀, v₀⟩ := p
    rw [keysA_cons, List.nodup_cons] at hnd
    rcases List.mem_cons.mp hmem with h | h
    · obtain ⟨rfl, rfl⟩ : k = k₀ ∧ v = v₀ := by
        constructor <;> [exact congrArg Prod.fst h; exact congrArg Prod.snd h]
      simp [lookupA]
    · have hk : k ≠ k₀ := by
        intro hkk
        subst hkk
        exact hnd.1 (List.mem_map.mpr ⟨(k, v), h, rfl⟩)
      rw [lookupA_cons, if_neg hk]
      exact ih h hnd.2

theorem lookupA_append_left (l₁ l₂ : List (α × β)) (k : α)
    (h : k ∈ keysA l₁) : lookupA (l₁ ++ l₂) k = lookupA l₁ k := by
  induction l₁ with
  | nil => simp [keysA] at h
  | cons p l ih =>
    obtain ⟨k₀, v₀⟩ := p
    by_cases hk : k = k₀
    · simp [lookupA, hk]
    · have hmem : k ∈ keysA l := by simpa [keysA, hk] using h
      simp [lookupA, hk, ih hmem]

theorem lookupA_append_right (l₁ l₂ : List (α × β)) (k : α)
    (h : k ∉ keysA l₁) : lookupA (l₁ ++ l₂) k = lookupA l₂ k := by
  induction l₁ with
  | nil => simp
  | cons p l ih =>
    obtain ⟨k₀, v₀⟩ := p
    have hk : k ≠ k₀ := fun hkk => h (by simp [keysA, hkk])
    have hmem : k ∉ keysA l := fun hm => h (by rw [keysA_cons, List.mem_cons]; exact Or.inr hm)
    simp [lookupA, hk, ih hmem]

end AListLemmas

section SortStability

/-- Stability of `orderedInsert` w.r.t. the metric-level filter: elements
skipped before the insertion point have a strictly larger metric, so the
metric-`m` slice either gains `a` at its front or is unchanged. -/
theorem filter_orderedInsert_metric (m : Int) (a : String × CandData) (l : List (String × CandData)) :
    (List.orderedInsert itemGE a l).filter (fun x => decide (x.2.metric = m)) =
      if a.2.metric = m then
        a :: l.filter (fun x => decide (x.2.metric = m))
      else
        l.filter (fun x => decide (x.2.metric = m)) := by
  induction l with
  | nil =>
    by_cases h : a.2.metric = m <;> simp [List.orderedInsert, List.filter, h]
  | cons b l ih =>
    by_cases hr : itemGE a b
    · rw [List.orderedInsert_of_le _ _ hr]
      by_cases h : a.2.metric = m <;> simp [List.filter, h]
    · have hb : ¬ b.2.metric = m ∨ ¬ a.2.metric = m := by
        by_cases hbm : b.2.metric = m
        · right
          intro ham
          exact hr (by simp [itemGE, hbm, ham])
        · left; exact hbm
      simp only [List.orderedInsert, if_neg hr]
      by_cases hbm : b.2.metric = m
      · have ham : ¬ a.2.metric = m := hb.resolve_left (by simp [hbm])
        simp [List.filter, hbm, ham, ih]
      · by_cases ham : a.2.metric = m <;> simp [List.filter, hbm, ham, ih]

/-- Stability of the full insertion sort: for every metric value `m`, the
subsequence of metric-`m` items is preserved exactly (Python's `sorted` is
stable). -/
theorem filter_insertionSort_metric (m : Int) (l : List (String × CandData)) :
    (List.insertionSort itemGE l).filter (fun x => decide (x.2.metric = m)) =
      l.filter (fun x => decide (x.2.metric = m)) := by
  induction l with
  | nil => rfl
  | cons a l ih =>
    rw [List.insertionSort, filter_orderedInsert_metric]
    by_cases h : a.2.metric = m <;> simp [List.filter, h, ih]

end SortStability

/-- C3: for every cell, the candidate list produced by the default ordering
criteria is a permutation of the cell's accumulated candidates, sorted
descending by the configured metric, and stable (the subsequence of
candidates at each fixed metric value is preserved, i.e. ties keep their
original insertion order); in particular metrics `[5, 5, 9]` for names
`["x", "y", "z"]` inserted in that order resolve to `["z", "x", "y"]`. -/
theorem order_criteria_sorted_stable (cell : Cell) (cells_dict : CellsMap) (m : Int) :
    (cell_order_criteria_default cell cells_dict).Perm
        (((lookupA cells_dict cell).getD []).map Prod.snd) ∧
    (cell_order_criteria_default cell cells_dict).Pairwise
        (fun a b => b.metric ≤ a.metric) ∧
    (cell_order_criteria_default cell cells_dict).filter (fun c => decide (c.metric = m)) =
        (((lookupA cells_dict cell).getD []).map Prod.snd).filter
          (fun c => decide (c.metric = m)) ∧
    (cell_order_criteria_default exC3Cell exC3Cells).map CandData.name = ["z", "x", "y"] := by
  refine ⟨?_, ?_, ?_, by decide⟩
  · exact (List.perm_insertionSort itemGE _).map Prod.snd
  · have h := List.sorted_insertionSort itemGE ((lookupA cells_dict cell).getD [])
    exact List.Pairwise.map Prod.snd (fun a b hab => hab) h
  · show (List.filter _ (List.map Prod.snd _)) = _
    rw [List.filter_map, List.filter_map]
    exact congrArg (List.map Prod.snd) (filter_insertionSort_metric m _)

section ResolveFoldLemmas

variable {α β : Type} [DecidableEq α]

theorem resolveFold_nil (g : α → β) (ci : List (α × β)) : resolveFold g [] ci = ci := rfl

theorem resolveFold_cons (g : α → β) (k : α) (ks : List α) (ci : List (α × β)) :
    resolveFold g (k :: ks) ci = resolveFold g ks (insertA ci k (g k)) := rfl

theorem insertA_append_of_not_mem (pre acc : List (α × β)) (k : α) (v : β)
    (h : k ∉ keysA pre) : insertA (pre ++ acc) k v = pre ++ insertA acc k v := by
  induction pre with
  | nil => simp
  | cons p l ih =>
    obtain ⟨k₀, v₀⟩ := p
    have hk : k ≠ k₀ := fun hkk => h (by simp [keysA, hkk])
    have hmem : k ∉ keysA l := fun hm => h (by rw [keysA_cons, List.mem_cons]; exact Or.inr hm)
    simp [insertA, hk, ih hmem]

theorem resolveFold_append (g : α → β) (ks : List α) (pre acc : List (α × β))
    (h : ∀ k ∈ ks, k ∉ keysA pre) :
    resolveFold g ks (pre ++ acc) = pre ++ resolveFold g ks acc := by
  induction ks generalizing acc with
  | nil => simp [resolveFold]
  | cons k ks ih =>
    rw [resolveFold_cons, resolveFold_cons,
      insertA_append_of_not_mem pre acc k (g k) (h k (List.mem_cons_self k ks))]
    exact ih (insertA acc k (g k)) (fun k' hk' => h k' (List.mem_cons_of_mem k hk'))

/-- Re-resolving over a stale `cell_ids` whose keys are a key-order-aligned
head of the `cells` keys fully replaces it: the result is as if resolution
started from an empty dict. -/
theorem resolveFold_stale (g : α → β) (ks : List α) (ci : List (α × β))
    (hnd : ks.Nodup) (hpre : keysA ci = ks.take ci.length) :
    resolveFold g ks ci = resolveFold g ks [] := by
  induction ci generalizing ks with
  | nil => rfl
  | cons p ci ih =>
    obtain ⟨k₀, v₀⟩ := p
    cases ks with
    | nil => simp [keysA] at hpre
    | cons k ks =>
      rw [keysA_cons, List.length_cons, List.take_succ_cons] at hpre
      obtain ⟨rfl, hpre'⟩ : k₀ = k ∧ keysA ci = ks.take ci.length := by
        constructor <;> [exact (List.cons.injEq _ _ _ _ ▸ hpre).1;
          exact (List.cons.injEq _ _ _ _ ▸ hpre).2]
      rw [List.nodup_cons] at hnd
      rw [resolveFold_cons, resolveFold_cons]
      have hins : insertA ((k₀, v₀) :: ci) k₀ (g k₀) = (k₀, g k₀) :: ci := by
        simp [insertA]
      have hins' : insertA ([] : List (α × β)) k₀ (g k₀) = (k₀, g k₀) :: ([] : List (α × β)) := rfl
      rw [hins, hins']
      have hnot : ∀ k' ∈ ks, k' ∉ keysA [(k₀, g k₀)] := by
        intro k' hk' hmem
        rcases List.mem_singleton.mp (by simpa [keysA] using hmem) with rfl
        exact hnd.1 hk'
      have h1 : resolveFold g ks ((k₀, g k₀) :: ci) =
          (k₀, g k₀) :: resolveFold g ks ci := by
        have := resolveFold_append g ks [(k₀, g k₀)] ci hnot
        simpa using this
      have h2 : resolveFold g ks [(k₀, g k₀)] =
          (k₀, g k₀) :: resolveFold g ks [] := by
        have := resolveFold_append g ks [(k₀, g k₀)] [] hnot
        simpa using this
      rw [h1, h2, ih ks hnd.2 hpre']

/-- Resolution from an empty target produces one record per cell, in
`cells` key order. -/
theorem keysA_resolveFold_nil (g : α → β) (ks : List α) (hnd : ks.Nodup) :
    keysA (resolveFold g ks []) = ks := by
  induction ks with
  | nil => rfl
  | cons k ks ih =>
    rw [List.nodup_cons] at hnd
    rw [resolveFold_cons]
    have hins : insertA ([] : List (α × β)) k (g k) = [(k, g k)] := rfl
    rw [hins]
    have hnot : ∀ k' ∈ ks, k' ∉ keysA [(k, g k)] := by
      intro k' hk' hmem
      rcases List.mem_singleton.mp (by simpa [keysA] using hmem) with rfl
      exact hnd.1 hk'
    have h1 : resolveFold g ks [(k, g k)] = (k, g k) :: resolveFold g ks [] := by
      have := resolveFold_append g ks [(k, g k)] [] hnot
      simpa using this
    rw [h1, keysA_cons, ih hnd.2]

theorem lookupA_resolveFold (g : α → β) (ks : List α) (ci : List (α × β)) (k : α) :
    lookupA (resolveFold g ks ci) k = if k ∈ ks then some (g k) else lookupA ci k := by
  induction ks generalizing ci with
  | nil => simp [resolveFold]
  | cons k₀ ks ih =>
    rw [resolveFold_cons, ih]
    by_cases hks : k ∈ ks
    · simp [hks, List.mem_cons]
    · by_cases hk : k = k₀
      · subst hk
        simp [hks, lookupA_insertA_self]
      · simp [hks, hk, lookupA_insertA_ne _ _ _ _ hk]

end ResolveFoldLemmas

section StateLemmas

theorem mem_of_lookupA_eq_some {α β : Type} [DecidableEq α] (l : List (α × β)) (k : α)
    (v : β) (h : lookupA l k = some v) : (k, v) ∈ l := by
  induction l with
  | nil => simp [lookupA] at h
  | cons p l ih =>
    obtain ⟨k₀, v₀⟩ := p
    by_cases hk : k = k₀
    · rw [lookupA_cons, if_pos hk] at h
      obtain rfl : v₀ = v := by injection h
      exact List.mem_cons.mpr (Or.inl (by rw [hk]))
    · rw [lookupA_cons, if_neg hk] at h
      exact List.mem_cons.mpr (Or.inr (ih h))

theorem insertA_ne_nil {α β : Type} [DecidableEq α] (l : List (α × β)) (k : α) (v : β) :
    insertA l k v ≠ [] := by
  cases l with
  | nil => simp [insertA]
  | cons p l =>
    obtain ⟨k₀, v₀⟩ := p
    by_cases hk : k = k₀ <;> simp [insertA, hk]

theorem keysA_length {α β : Type} (l : List (α × β)) : (keysA l).length = l.length := by
  simp [keysA]

theorem goodS_insert_inner (s : FState) (cell : Cell) (inner' : InnerCells)
    (h : GoodS s) (hk : cell ∈ keysA s.cells) (hnd' : (keysA inner').Nodup)
    (hne : inner' ≠ []) : GoodS { s with cells := insertA s.cells cell inner' } := by
  obtain ⟨hnd, hinner, htake⟩ := h
  refine ⟨?_, ?_, ?_⟩
  · show (keysA (insertA s.cells cell inner')).Nodup
    rw [keysA_insertA_of_mem _ _ _ hk]
    exact hnd
  · intro p hp
    rcases mem_of_mem_insertA _ _ _ _ hp with hp' | rfl
    · exact hinner p hp'
    · exact ⟨hnd', hne⟩
  · show keysA s.cell_ids = (keysA (insertA s.cells cell inner')).take s.cell_ids.length
    rw [keysA_insertA_of_mem _ _ _ hk]
    exact htake

theorem goodS_append_cell (s : FState) (cell : Cell) (inner' : InnerCells)
    (h : GoodS s) (hk : cell ∉ keysA s.cells) (hnd' : (keysA inner').Nodup)
    (hne : inner' ≠ []) : GoodS { s with cells := insertA s.cells cell inner' } := by
  obtain ⟨hnd, hinner, htake⟩ := h
  have hins := insertA_of_not_mem_keysA s.cells cell inner' hk
  refine ⟨?_, ?_, ?_⟩
  · show (keysA (insertA s.cells cell inner')).Nodup
    rw [hins, keysA_append]
    refine (List.nodup_append).mpr ⟨hnd, List.nodup_singleton cell, ?_⟩
    intro a ha hb
    rcases List.mem_singleton.mp hb with rfl
    exact hk ha
  · intro p hp
    rw [hins] at hp
    rcases List.mem_append.mp hp with hp' | hp'
    · exact hinner p hp'
    · rcases List.mem_singleton.mp hp' with rfl
      exact ⟨hnd', hne⟩
  · show keysA s.cell_ids = (keysA (insertA s.cells cell inner')).take s.cell_ids.length
    have hle : s.cell_ids.length ≤ (keysA s.cells).length := by
      have hlen := congrArg List.length htake
      rw [keysA_length, List.length_take] at hlen
      omega
    rw [hins, keysA_append, keysA_cons, keysA_nil, List.take_append_of_le_length hle]
    exact htake

/-- Method `_set_cell` preserves the aggregator's well-formedness invariant. -/
theorem goodS_set_cell (s : FState) (cell : Cell) (nm : String) (d : CandData)
    (h : GoodS s) : GoodS (set_cell s cell nm d) := by
  show GoodS { s with cells := set_cell_cells s.cells cell nm d }
  cases hc : lookupA s.cells cell with
  | some inner =>
    have hmemc : (cell, inner) ∈ s.cells := mem_of_lookupA_eq_some _ _ _ hc
    have hkc : cell ∈ keysA s.cells :=
      (mem_keysA_iff_lookupA_isSome _ _).mpr (by simp [hc])
    have hinn := h.2.1 _ hmemc
    cases hn : lookupA inner nm with
    | some old =>
      have hkn : nm ∈ keysA inner :=
        (mem_keysA_iff_lookupA_isSome _ _).mpr (by simp [hn])
      have hred : set_cell_cells s.cells cell nm d =
          insertA s.cells cell
            (insertA inner nm { old with metric := old.metric + d.metric }) := by
        simp only [set_cell_cells, hc, hn]
      rw [hred]
      exact goodS_insert_inner s cell _ h hkc
        (by rw [keysA_insertA_of_mem _ _ _ hkn]; exact hinn.1) (insertA_ne_nil _ _ _)
    | none =>
      have hkn : nm ∉ keysA inner := by
        rw [mem_keysA_iff_lookupA_isSome, hn]
        simp
      have hred : set_cell_cells s.cells cell nm d =
          insertA s.cells cell (insertA inner nm d) := by
        simp only [set_cell_cells, hc, hn]
      rw [hred]
      refine goodS_insert_inner s cell _ h hkc ?_ (insertA_ne_nil _ _ _)
      rw [keysA_insertA_of_not_mem _ _ _ hkn]
      exact List.Nodup.append hinn.1 (List.nodup_singleton nm)
        (fun a ha hb => hkn ((List.mem_singleton.mp hb) ▸ ha))
  | none =>
    have hkc : cell ∉ keysA s.cells := by
      rw [mem_keysA_iff_lookupA_isSome, hc]
      simp
    have hred : set_cell_cells s.cells cell nm d = insertA s.cells cell [(nm, d)] := by
      simp only [set_cell_cells, hc]
    rw [hred]
    exact goodS_append_cell s cell _ h hkc (List.nodup_singleton nm) (by simp)

/-- The resolved `cell_ids` of a well-formed state are fully determined by
`cells`: re-resolving replaces every stale record. -/
theorem set_cell_by_criteria_cell_ids (s : FState) (h : GoodS s) :
    (set_cell_by_criteria s).cell_ids =
      resolveFold (fun c => mk_cell_record c s.cells) (keysA s.cells) [] :=
  resolveFold_stale _ _ _ h.1 h.2.2

/-- Method `_set_cell_by_criteria` preserves the well-formedness invariant. -/
theorem goodS_set_cell_by_criteria (s : FState) (h : GoodS s) :
    GoodS (set_cell_by_criteria s) := by
  obtain ⟨hnd, hinner, htake⟩ := h
  refine ⟨hnd, hinner, ?_⟩
  show keysA (set_cell_by_criteria s).cell_ids =
    (keysA s.cells).take (set_cell_by_criteria s).cell_ids.length
  rw [set_cell_by_criteria_cell_ids s ⟨hnd, hinner, htake⟩]
  have hkeys := keysA_resolveFold_nil (fun c => mk_cell_record c s.cells) (keysA s.cells) hnd
  have hlen : (resolveFold (fun c => mk_cell_record c s.cells) (keysA s.cells)
      ([] : List (Cell × CellRecord))).length = (keysA s.cells).length := by
    rw [← keysA_length, hkeys]
  rw [hkeys, hlen, List.take_length]

theorem apply_accums_eq (s : FState) (ops : List AccOp) :
    apply_accums s ops = { s with cells := accum_cells s.cells ops } := by
  induction ops generalizing s with
  | nil => rfl
  | cons op ops ih =>
    show apply_accums (set_cell s op.1 op.2.1 op.2.2) ops = _
    rw [ih]
    rfl

theorem keysA_set_cell_cells (cells : CellsMap) (c : Cell) (nm : String) (d : CandData) :
    keysA (set_cell_cells cells c nm d) = keysA cells ∨
      keysA (set_cell_cells cells c nm d) = keysA cells ++ [c] := by
  cases hc : lookupA cells c with
  | some inner =>
    have hkc : c ∈ keysA cells :=
      (mem_keysA_iff_lookupA_isSome _ _).mpr (by simp [hc])
    left
    cases hn : lookupA inner nm with
    | some old =>
      have hred : set_cell_cells cells c nm d =
          insertA cells c (insertA inner nm { old with metric := old.metric + d.metric }) := by
        simp only [set_cell_cells, hc, hn]
      rw [hred, keysA_insertA_of_mem _ _ _ hkc]
    | none =>
      have hred : set_cell_cells cells c nm d = insertA cells c (insertA inner nm d) := by
        simp only [set_cell_cells, hc, hn]
      rw [hred, keysA_insertA_of_mem _ _ _ hkc]
  | none =>
    have hkc : c ∉ keysA cells := by
      rw [mem_keysA_iff_lookupA_isSome, hc]
      simp
    right
    have hred : set_cell_cells cells c nm d = insertA cells c [(nm, d)] := by
      simp only [set_cell_cells, hc]
    rw [hred, keysA_insertA_of_not_mem _ _ _ hkc]

/-- Accumulation only ever appends new cell keys at the end. -/
theorem exists_ext_keysA_accum_cells (cells : CellsMap) (ops : List AccOp) :
    ∃ ext, keysA (accum_cells cells ops) = keysA cells ++ ext := by
  induction ops generalizing cells with
  | nil => exact ⟨[], by simp [accum_cells]⟩
  | cons op ops ih =>
    show ∃ ext, keysA (accum_cells (set_cell_cells cells op.1 op.2.1 op.2.2) ops) = _
    obtain ⟨ext, hext⟩ := ih (set_cell_cells cells op.1 op.2.1 op.2.2)
    rcases keysA_set_cell_cells cells op.1 op.2.1 op.2.2 with hcase | hcase
    · exact ⟨ext, by rw [hext, hcase]⟩
    · exact ⟨op.1 :: ext, by rw [hext, hcase, List.append_assoc]; rfl⟩

theorem goodS_apply_accums (s : FState) (ops : List AccOp) (h : GoodS s) :
    GoodS (apply_accums s ops) := by
  induction ops generalizing s with
  | nil => exact h
  | cons op ops ih =>
    exact ih (set_cell s op.1 op.2.1 op.2.2) (goodS_set_cell s op.1 op.2.1 op.2.2 h)

end StateLemmas

/-! ## Claims about the Cell Aggregator -/

/-- C2: accumulating `(cell, name, d1)` then `(cell, name, d2)` via
`_set_cell` on a state where `(cell, name)` is not yet present yields
exactly one candidate entry for `name` at `cell`, whose configured metric
field equals `d1.metric + d2.metric` (the remaining payload is `d1`'s);
and accumulating a `(cell, name)` pair not yet present creates a new entry
holding exactly the given data. -/
theorem accumulate_merges_metric (s : FState) (cell : Cell) (nm : String)
    (d1 d2 : CandData) (habs : cellLookup s.cells cell nm = none) :
    cellLookup (set_cell (set_cell s cell nm d1) cell nm d2).cells cell nm =
      some { d1 with metric := d1.metric + d2.metric } ∧
    List.count nm
      (keysA ((lookupA (set_cell (set_cell s cell nm d1) cell nm d2).cells cell).getD [])) = 1 ∧
    cellLookup (set_cell s cell nm d1).cells cell nm = some d1 := by
  cases hc : lookupA s.cells cell with
  | none =>
    have h1 : set_cell_cells s.cells cell nm d1 = insertA s.cells cell [(nm, d1)] := by
      simp only [set_cell_cells, hc]
    have h2 : lookupA (insertA s.cells cell [(nm, d1)]) cell = some [(nm, d1)] :=
      lookupA_insertA_self _ _ _
    have h3 : lookupA [(nm, d1)] nm = some d1 := by simp [lookupA]
    have h4 : set_cell_cells (insertA s.cells cell [(nm, d1)]) cell nm d2 =
        insertA (insertA s.cells cell [(nm, d1)]) cell
          (insertA [(nm, d1)] nm { d1 with metric := d1.metric + d2.metric }) := by
      simp only [set_cell_cells, h2, h3]
    have h5 : insertA [(nm, d1)] nm { d1 with metric := d1.metric + d2.metric } =
        [(nm, { d1 with metric := d1.metric + d2.metric })] := by
      simp [insertA]
    refine ⟨?_, ?_, ?_⟩
    · show cellLookup (set_cell_cells (set_cell_cells s.cells cell nm d1) cell nm d2) cell nm = _
      rw [h1, h4, h5]
      simp only [cellLookup, lookupA_insertA_self]
      simp [lookupA]
    · show List.count nm
        (keysA ((lookupA (set_cell_cells (set_cell_cells s.cells cell nm d1) cell nm d2)
          cell).getD [])) = 1
      rw [h1, h4, h5]
      rw [lookupA_insertA_self]
      simp [keysA]
    · show cellLookup (set_cell_cells s.cells cell nm d1) cell nm = some d1
      rw [h1]
      simp only [cellLookup, lookupA_insertA_self]
      exact h3
  | some inner =>
    have hn : lookupA inner nm = none := by
      have := habs
      simp only [cellLookup, hc] at this
      exact this
    have hnm : nm ∉ keysA inner := by
      rw [mem_keysA_iff_lookupA_isSome, hn]
      simp
    have h1 : set_cell_cells s.cells cell nm d1 = insertA s.cells cell (insertA inner nm d1) := by
      simp only [set_cell_cells, hc, hn]
    have h2 : lookupA (insertA s.cells cell (insertA inner nm d1)) cell =
        some (insertA inner nm d1) := lookupA_insertA_self _ _ _
    have h3 : lookupA (insertA inner nm d1) nm = some d1 := lookupA_insertA_self _ _ _
    have h4 : set_cell_cells (insertA s.cells cell (insertA inner nm d1)) cell nm d2 =
        insertA (insertA s.cells cell (insertA inner nm d1)) cell
          (insertA (insertA inner nm d1) nm { d1 with metric := d1.metric + d2.metric }) := by
      simp only [set_cell_cells, h2, h3]
    refine ⟨?_, ?_, ?_⟩
    · show cellLookup (set_cell_cells (set_cell_cells s.cells cell nm d1) cell nm d2) cell nm = _
      rw [h1, h4]
      simp only [cellLookup, lookupA_insertA_self]
    · show List.count nm
        (keysA ((lookupA (set_cell_cells (set_cell_cells s.cells cell nm d1) cell nm d2)
          cell).getD [])) = 1
      rw [h1, h4, lookupA_insertA_self]
      have hk1 : nm ∈ keysA (insertA inner nm d1) := by
        rw [mem_keysA_iff_lookupA_isSome, h3]
        simp
      rw [Option.getD_some, keysA_insertA_of_mem _ _ _ hk1,
        insertA_of_not_mem_keysA _ _ _ hnm, keysA_append]
      rw [List.count_append, List.count_eq_zero_of_not_mem hnm]
      simp [keysA]
    · show cellLookup (set_cell_cells s.cells cell nm d1) cell nm = some d1
      rw [h1]
      simp only [cellLookup, lookupA_insertA_self]

theorem accumulate_merges_metric_witness :
    cellLookup exAggState.cells ⟨0, 0⟩ "c" = none ∧
    (cellLookup (set_cell (set_cell exAggState ⟨0, 0⟩ "c" ⟨"c", 3, 5, "m"⟩) ⟨0, 0⟩ "c"
        ⟨"c", 4, 5, "m"⟩).cells ⟨0, 0⟩ "c" =
      some { CandData.mk "c" 3 5 "m" with metric := (3 : Int) + 4 } ∧
    List.count "c"
      (keysA ((lookupA (set_cell (set_cell exAggState ⟨0, 0⟩ "c" ⟨"c", 3, 5, "m"⟩) ⟨0, 0⟩ "c"
        ⟨"c", 4, 5, "m"⟩).cells ⟨0, 0⟩).getD [])) = 1 ∧
    cellLookup (set_cell exAggState ⟨0, 0⟩ "c" ⟨"c", 3, 5, "m"⟩).cells ⟨0, 0⟩ "c" =
      some ⟨"c", 3, 5, "m"⟩) :=
  ⟨by decide, accumulate_merges_metric exAggState ⟨0, 0⟩ "c" ⟨"c", 3, 5, "m"⟩ ⟨"c", 4, 5, "m"⟩
    (by decide)⟩

/-- C4: resolution (`_set_cell_by_criteria` with the default criteria) is
idempotent on a well-formed state — running it twice yields an identical
state — and re-runnable: resolving, accumulating further, then resolving
again yields exactly the records of accumulating then resolving once, i.e.
stale records are fully replaced by records of the updated totals. -/
theorem resolve_idempotent_rerunnable (s : FState) (ops : List AccOp) (h : GoodS s) :
    set_cell_by_criteria (set_cell_by_criteria s) = set_cell_by_criteria s ∧
    (set_cell_by_criteria (apply_accums (set_cell_by_criteria s) ops)).cell_ids =
      (set_cell_by_criteria (apply_accums s ops)).cell_ids := by
  constructor
  · have key : resolveFold (fun c => mk_cell_record c s.cells) (keysA s.cells)
        (set_cell_by_criteria s).cell_ids = (set_cell_by_criteria s).cell_ids := by
      rw [set_cell_by_criteria_cell_ids s h]
      have hk := keysA_resolveFold_nil (fun c => mk_cell_record c s.cells) (keysA s.cells) h.1
      have hlen : (resolveFold (fun c => mk_cell_record c s.cells) (keysA s.cells)
          ([] : List (Cell × CellRecord))).length = (keysA s.cells).length := by
        rw [← keysA_length, hk]
      refine resolveFold_stale _ _ _ h.1 ?_
      rw [hk, hlen, List.take_length]
    show { set_cell_by_criteria s with
        cell_ids := resolveFold (fun c => mk_cell_record c s.cells) (keysA s.cells)
          (set_cell_by_criteria s).cell_ids } = set_cell_by_criteria s
    rw [key]
  · have hLG : GoodS (apply_accums (set_cell_by_criteria s) ops) :=
      goodS_apply_accums _ ops (goodS_set_cell_by_criteria s h)
    have hRG : GoodS (apply_accums s ops) := goodS_apply_accums s ops h
    rw [set_cell_by_criteria_cell_ids _ hLG, set_cell_by_criteria_cell_ids _ hRG]
    have hcells : (apply_accums (set_cell_by_criteria s) ops).cells =
        (apply_accums s ops).cells := by
      rw [apply_accums_eq, apply_accums_eq]
      rfl
    rw [hcells]

theorem resolve_idempotent_rerunnable_witness :
    GoodS exAggState ∧
    (set_cell_by_criteria (set_cell_by_criteria exAggState) = set_cell_by_criteria exAggState ∧
     (set_cell_by_criteria (apply_accums (set_cell_by_criteria exAggState)
         [(⟨0, 0⟩, "a", ⟨"a", 4, 5, "m"⟩)])).cell_ids =
       (set_cell_by_criteria (apply_accums exAggState
         [(⟨0, 0⟩, "a", ⟨"a", 4, 5, "m"⟩)])).cell_ids) :=
  ⟨by decide, resolve_idempotent_rerunnable exAggState [(⟨0, 0⟩, "a", ⟨"a", 4, 5, "m"⟩)]
    (by decide)⟩

/-- C5: after resolution, `cell_ids` has an entry exactly for each cell that
received at least one candidate, and each record stores
`number_of_data = len(data)`, `row`/`col` copied from the cell key, and
`cell_id` taken from the first (winning) candidate. -/
theorem resolve_output_exact (s : FState) (c : Cell) (r : CellRecord) (h : GoodS s) :
    ((lookupA (set_cell_by_criteria s).cell_ids c).isSome ↔ (lookupA s.cells c).isSome) ∧
    (lookupA (set_cell_by_criteria s).cell_ids c = some r →
      r.number_of_data = r.data.length ∧ r.row = c.row ∧ r.col = c.col ∧
      ∃ c0 tl, r.data = c0 :: tl ∧ r.cell_id = c0.cell_id) := by
  rw [set_cell_by_criteria_cell_ids s h, lookupA_resolveFold]
  constructor
  · by_cases hcm : c ∈ keysA s.cells
    · rw [mem_keysA_iff_lookupA_isSome] at hcm
      simp [if_pos ((mem_keysA_iff_lookupA_isSome _ _).mpr hcm), hcm]
    · have hnone : lookupA s.cells c = none := lookupA_eq_none_of_not_mem_keysA _ _ hcm
      simp [if_neg hcm, hnone]
  · intro hr
    by_cases hcm : c ∈ keysA s.cells
    · rw [if_pos hcm] at hr
      obtain rfl : r = mk_cell_record c s.cells := by injection hr.symm
      obtain ⟨inner, hinner⟩ : ∃ inner, lookupA s.cells c = some inner := by
        have := (mem_keysA_iff_lookupA_isSome _ _).mp hcm
        cases hl : lookupA s.cells c with
        | none => rw [hl] at this; simp at this
        | some inner => exact ⟨inner, rfl⟩
      have hne : inner ≠ [] := (h.2.1 _ (mem_of_lookupA_eq_some _ _ _ hinner)).2
      have hord : cell_order_criteria_default c s.cells =
          (List.insertionSort itemGE inner).map Prod.snd := by
        simp only [cell_order_criteria_default, hinner, Option.getD_some]
      have hlen : (cell_order_criteria_default c s.cells).length = inner.length := by
        rw [hord, List.length_map, List.length_insertionSort]
      cases hcase : cell_order_criteria_default c s.cells with
      | nil =>
        rw [hcase] at hlen
        exact absurd (List.length_eq_zero.mp hlen.symm) hne
      | cons c0 tl =>
        refine ⟨rfl, rfl, rfl, c0, tl, ?_, ?_⟩
        · show cell_order_criteria_default c s.cells = c0 :: tl
          exact hcase
        · show headCellId (cell_order_criteria_default c s.cells) = c0.cell_id
          rw [hcase]
          rfl
    · rw [if_neg hcm] at hr
      simp [lookupA] at hr

theorem resolve_output_exact_witness :
    GoodS exAggState ∧
    (((lookupA (set_cell_by_criteria exAggState).cell_ids ⟨0, 0⟩).isSome ↔
        (lookupA exAggState.cells ⟨0, 0⟩).isSome) ∧
     (lookupA (set_cell_by_criteria exAggState).cell_ids ⟨0, 0⟩ =
        some ⟨1, 5, 0, 0, [⟨"a", 2, 5, "m"⟩]⟩ →
      (CellRecord.mk 1 5 0 0 [⟨"a", 2, 5, "m"⟩]).number_of_data =
          (CellRecord.mk 1 5 0 0 [⟨"a", 2, 5, "m"⟩]).data.length ∧
        (CellRecord.mk 1 5 0 0 [⟨"a", 2, 5, "m"⟩]).row = (Cell.mk 0 0).row ∧
        (CellRecord.mk 1 5 0 0 [⟨"a", 2, 5, "m"⟩]).col = (Cell.mk 0 0).col ∧
        ∃ c0 tl, (CellRecord.mk 1 5 0 0 [⟨"a", 2, 5, "m"⟩]).data = c0 :: tl ∧
          (CellRecord.mk 1 5 0 0 [⟨"a", 2, 5, "m"⟩]).cell_id = c0.cell_id)) :=
  ⟨by decide, resolve_output_exact exAggState ⟨0, 0⟩ ⟨1, 5, 0, 0, [⟨"a", 2, 5, "m"⟩]⟩ (by decide)⟩

section BuildDictLemmas

theorem getD_eq_getElem_of_lt {α : Type} {l : List α} {i : Nat} (h : i < l.length) (d : α) :
    l.getD i d = l[i] := by
  rw [List.getD_eq_getElem?_getD, List.getElem?_eq_getElem h]
  rfl

theorem getD_ne_of_nodup {α : Type} {l : List α} (hnd : l.Nodup) {i j : Nat}
    (hi : i < l.length) (hj : j < l.length) (hij : i ≠ j) (d : α) :
    l.getD i d ≠ l.getD j d := by
  rw [getD_eq_getElem_of_lt hi, getD_eq_getElem_of_lt hj]
  intro he
  exact hij (hnd.getElem_inj_iff.mp he)

theorem keysA_map_pair {α β : Type} (f : Nat → α) (g : Nat → β) (idxs : List Nat) :
    keysA (idxs.map (fun i => (f i, g i))) = idxs.map f := by
  induction idxs with
  | nil => rfl
  | cons i idxs ih => simp only [List.map_cons, keysA_cons, ih]

theorem foldl_insertA_map {α β : Type} [DecidableEq α] (f : Nat → α) (g : Nat → β)
    (idxs : List Nat) (d0 : List (α × β)) (hnd : (idxs.map f).Nodup)
    (hfresh : ∀ i ∈ idxs, f i ∉ keysA d0) :
    idxs.foldl (fun d i => insertA d (f i) (g i)) d0 =
      d0 ++ idxs.map (fun i => (f i, g i)) := by
  induction idxs generalizing d0 with
  | nil => simp
  | cons i idxs ih =>
    rw [List.foldl_cons,
      insertA_of_not_mem_keysA d0 (f i) (g i) (hfresh i (List.mem_cons_self i idxs))]
    rw [List.map_cons, List.nodup_cons] at hnd
    have hfresh' : ∀ j ∈ idxs, f j ∉ keysA (d0 ++ [(f i, g i)]) := by
      intro j hj hmem
      rw [keysA_append] at hmem
      rcases List.mem_append.mp hmem with hm | hm
      · exact hfresh j (List.mem_cons_of_mem i hj) hm
      · have he : f j = f i := List.mem_singleton.mp (by simpa [keysA] using hm)
        exact hnd.1 (he ▸ List.mem_map.mpr ⟨j, hj, rfl⟩)
    rw [ih _ hnd.2 hfresh', List.append_assoc]
    rfl

theorem lookupA_map_pair {α β : Type} [DecidableEq α] (f : Nat → α) (g : Nat → β)
    (idxs : List Nat) (j : Nat) (hj : j ∈ idxs) (hnd : (idxs.map f).Nodup) :
    lookupA (idxs.map (fun i => (f i, g i))) (f j) = some (g j) := by
  induction idxs with
  | nil => simp at hj
  | cons i idxs ih =>
    rw [List.map_cons, List.nodup_cons] at hnd
    rcases List.mem_cons.mp hj with rfl | hj'
    · rw [List.map_cons, lookupA_cons, if_pos rfl]
    · have hne : f j ≠ f i := by
        intro he
        exact hnd.1 (he ▸ List.mem_map.mpr ⟨j, hj', rfl⟩)
      rw [List.map_cons, lookupA_cons, if_neg hne]
      exact ih hj' hnd.2

/-- Candidate-name columns built by `range(values_to_save)` have no
duplicate keys when the declared column names are distinct. -/
theorem nodup_first_keys (col_names : List String) (hnd : col_names.Nodup)
    (v : Nat) (hv : v ≤ col_names.length) :
    ((List.range v).map (fun i => col_names.getD i "")).Nodup := by
  refine List.Nodup.map_on ?_ (List.nodup_range v)
  intro i hi j hj he
  rw [List.mem_range] at hi hj
  by_contra hij
  exact getD_ne_of_nodup hnd (lt_of_lt_of_le hi hv) (lt_of_lt_of_le hj hv) hij "" he

/-- Padding columns built by `range(cols_number - values_to_save)` have no
duplicate keys. -/
theorem nodup_pad_keys (col_names : List String) (hnd : col_names.Nodup)
    (n v : Nat) (hn : n ≤ col_names.length) :
    ((List.range (n - v)).map (fun j => col_names.getD (n - (j + 1)) "")).Nodup := by
  refine List.Nodup.map_on ?_ (List.nodup_range (n - v))
  intro i hi j hj he
  rw [List.mem_range] at hi hj
  by_contra hij
  have hine : n - (i + 1) ≠ n - (j + 1) := by omega
  exact getD_ne_of_nodup hnd (by omega) (by omega) hine "" he

/-- Normal form of the built main-map dict: the candidate-name bindings in
rank order followed by the empty-string padding bindings. -/
theorem build_main_data_eq (col_data : List CandData) (col_names : List String)
    (cols_number : Nat) (hnd : col_names.Nodup) (hlen : cols_number ≤ col_names.length) :
    build_main_data col_data col_names cols_number =
      (List.range (min cols_number col_data.length)).map
        (fun i => (col_names.getD i "", (col_data.getD i default).name)) ++
      (List.range (cols_number - min cols_number col_data.length)).map
        (fun j => (col_names.getD (cols_number - (j + 1)) "", "")) := by
  have hv : min cols_number col_data.length ≤ cols_number := Nat.min_le_left _ _
  have h1 := foldl_insertA_map (fun i => col_names.getD i "")
    (fun i => (col_data.getD i default).name) (List.range (min cols_number col_data.length)) []
    (nodup_first_keys col_names hnd _ (le_trans hv hlen)) (by simp [keysA])
  have h2 := foldl_insertA_map (fun j => col_names.getD (cols_number - (j + 1)) "")
    (fun _ => "") (List.range (cols_number - min cols_number col_data.length))
    ((List.range (min cols_number col_data.length)).map
      (fun i => (col_names.getD i "", (col_data.getD i default).name)))
    (nodup_pad_keys col_names hnd cols_number _ hlen) ?_
  · show (List.range (cols_number - min cols_number col_data.length)).foldl _
      ((List.range (min cols_number col_data.length)).foldl _ []) = _
    rw [h1]
    simp only [List.nil_append]
    exact h2
  · intro j hj hmem
    rw [List.mem_range] at hj
    rw [keysA_map_pair] at hmem
    obtain ⟨i, hi, he⟩ := List.mem_map.mp hmem
    rw [List.mem_range] at hi
    have hine : i ≠ cols_number - (j + 1) := by omega
    exact getD_ne_of_nodup hnd (by omega) (by omega) hine "" he

end BuildDictLemmas

/-- C1 counterexample: a cell with 2 resolved candidates and a column limit
of 1 on a processor that is not the demand-site processor produces no
warning at all — the source guards the capacity warning with
`self.__class__.__name__ == 'DemandSiteProcess'`, so the claim's
"for every cell ... emits a WARNING" fails. -/
theorem truncation_warning_claim_false :
    (get_cell_data_by_map exC1State "m" ⟨0, 0⟩).length = 2 ∧ 2 > 1 ∧
    (get_data_to_save_main exC1State ⟨0, 0⟩ "m" ["COL1"] 1 false "catchment").1.errors = [] ∧
    exC1State.errors = [] := by
  refine ⟨by decide, by decide, ?_, by decide⟩
  decide

/-- C1 (amended): in `get_data_to_save` with `main_data=True`, when the
resolved main-map candidate list overflows the configured column limit the
WARNING diagnostic — naming the cell, the feature count and the limit — is
emitted only when the processor is the demand-site processor; for every
processor the output is truncated to the top `min(cols_number, available)`
candidates by rank (their names fill the first columns in ranking order)
and the remaining declared columns are filled with the empty string. -/
theorem main_columns_truncate (s : FState) (cell : Cell) (main_map : String)
    (col_names : List String) (cols_number : Nat) (is_demand_site : Bool) (ft : String)
    (i : Nat) (hnd : col_names.Nodup) (hlen : cols_number ≤ col_names.length) :
    ((get_data_to_save_main s cell main_map col_names cols_number is_demand_site ft).1.errors =
      if (get_cell_data_by_map s main_map cell).length > cols_number ∧ is_demand_site then
        s.errors ++ [⟨capacityMsg cell main_map
          (get_cell_data_by_map s main_map cell).length cols_number, ft, "", true⟩]
      else s.errors) ∧
    (i < min cols_number (get_cell_data_by_map s main_map cell).length →
      lookupA (get_data_to_save_main s cell main_map col_names cols_number is_demand_site ft).2
          (col_names.getD i "") =
        some ((get_cell_data_by_map s main_map cell).getD i default).name) ∧
    (get_cell_data_by_map s main_map cell ≠ [] →
      min cols_number (get_cell_data_by_map s main_map cell).length ≤ i → i < cols_number →
      lookupA (get_data_to_save_main s cell main_map col_names cols_number is_demand_site ft).2
        (col_names.getD i "") = some "") := by
  by_cases hempty : get_cell_data_by_map s main_map cell = []
  · have hred : get_data_to_save_main s cell main_map col_names cols_number is_demand_site ft =
        (s, (List.range cols_number).foldl (fun d i => insertA d (col_names.getD i "") "") []) := by
      simp only [get_data_to_save_main, hempty]
      simp
    refine ⟨?_, ?_, ?_⟩
    · rw [hred, hempty]
      simp
    · intro hi
      rw [hempty] at hi
      simp at hi
    · intro hne
      exact absurd hempty hne
  · have hred : get_data_to_save_main s cell main_map col_names cols_number is_demand_site ft =
        ((if (get_cell_data_by_map s main_map cell).length > cols_number ∧ is_demand_site then
          { s with errors := s.errors ++ [⟨capacityMsg cell main_map
              (get_cell_data_by_map s main_map cell).length cols_number, ft, "", true⟩] }
        else s),
        build_main_data (get_cell_data_by_map s main_map cell) col_names cols_number) := by
      simp only [get_data_to_save_main]
      rw [if_pos hempty]
    have hdata := build_main_data_eq (get_cell_data_by_map s main_map cell) col_names
      cols_number hnd hlen
    refine ⟨?_, ?_, ?_⟩
    · rw [hred]
      by_cases hcond : (get_cell_data_by_map s main_map cell).length > cols_number ∧ is_demand_site
      · rw [if_pos hcond, if_pos hcond]
      · rw [if_neg hcond, if_neg hcond]
    · intro hi
      rw [hred]
      show lookupA (build_main_data (get_cell_data_by_map s main_map cell) col_names cols_number)
        (col_names.getD i "") = _
      rw [hdata]
      have hkey : col_names.getD i "" ∈
          keysA ((List.range (min cols_number (get_cell_data_by_map s main_map cell).length)).map
            (fun i => (col_names.getD i "", (get_cell_data_by_map s main_map cell).getD i
              default |>.name))) := by
        rw [keysA_map_pair]
        exact List.mem_map.mpr ⟨i, List.mem_range.mpr hi, rfl⟩
      rw [lookupA_append_left _ _ _ hkey]
      exact lookupA_map_pair (fun i => col_names.getD i "")
        (fun i => ((get_cell_data_by_map s main_map cell).getD i default).name)
        (List.range (min cols_number (get_cell_data_by_map s main_map cell).length)) i
        (List.mem_range.mpr hi)
        (nodup_first_keys col_names hnd _
          (le_trans (Nat.min_le_left _ _) hlen))
    · intro _ hge hlt
      rw [hred]
      show lookupA (build_main_data (get_cell_data_by_map s main_map cell) col_names cols_number)
        (col_names.getD i "") = _
      rw [hdata]
      have hnotkey : col_names.getD i "" ∉
          keysA ((List.range (min cols_number (get_cell_data_by_map s main_map cell).length)).map
            (fun i => (col_names.getD i "", (get_cell_data_by_map s main_map cell).getD i
              default |>.name))) := by
        rw [keysA_map_pair]
        intro hmem
        obtain ⟨i', hi', he⟩ := List.mem_map.mp hmem
        rw [List.mem_range] at hi'
        have hine : i' ≠ i := by omega
        exact getD_ne_of_nodup hnd (by omega) (by omega) hine "" he
      rw [lookupA_append_right _ _ _ hnotkey]
      have hj : cols_number - i - 1 ∈
          List.range (cols_number - min cols_number
            (get_cell_data_by_map s main_map cell).length) := by
        rw [List.mem_range]
        omega
      have happ := lookupA_map_pair (fun j => col_names.getD (cols_number - (j + 1)) "")
        (fun _ => ("" : String))
        (List.range (cols_number - min cols_number
          (get_cell_data_by_map s main_map cell).length))
        (cols_number - i - 1) hj (nodup_pad_keys col_names hnd cols_number _ hlen)
      have hidx : cols_number - (cols_number - i - 1 + 1) = i := by omega
      simpa [hidx] using happ

theorem main_columns_truncate_witness :
    (["COL1"].Nodup ∧ 1 ≤ ["COL1"].length) ∧
    (((get_data_to_save_main exC1State ⟨0, 0⟩ "m" ["COL1"] 1 false "catchment").1.errors =
      if (get_cell_data_by_map exC1State "m" ⟨0, 0⟩).length > 1 ∧ false then
        exC1State.errors ++ [⟨capacityMsg ⟨0, 0⟩ "m"
          (get_cell_data_by_map exC1State "m" ⟨0, 0⟩).length 1, "catchment", "", true⟩]
      else exC1State.errors) ∧
    (0 < min 1 (get_cell_data_by_map exC1State "m" ⟨0, 0⟩).length →
      lookupA (get_data_to_save_main exC1State ⟨0, 0⟩ "m" ["COL1"] 1 false "catchment").2
          (["COL1"].getD 0 "") =
        some ((get_cell_data_by_map exC1State "m" ⟨0, 0⟩).getD 0 default).name) ∧
    (get_cell_data_by_map exC1State "m" ⟨0, 0⟩ ≠ [] →
      min 1 (get_cell_data_by_map exC1State "m" ⟨0, 0⟩).length ≤ 0 → 0 < 1 →
      lookupA (get_data_to_save_main exC1State ⟨0, 0⟩ "m" ["COL1"] 1 false "catchment").2
        (["COL1"].getD 0 "") = some "")) :=
  ⟨⟨by decide, by decide⟩,
    main_columns_truncate exC1State ⟨0, 0⟩ "m" ["COL1"] 1 false "catchment" 0
      (by decide) (by decide)⟩

section SuperpositionLemmas

theorem add_error_connections (st : SCState) (b s_ : String) :
    (add_error st b s_).connections = st.connections := by
  simp only [add_error]
  split <;> rfl

theorem check_connection_add_error (st : SCState) (b s_ b2 s2 : String) :
    check_connection (add_error st b s_) b2 s2 = check_connection st b2 s2 := by
  show check_connection_conns (add_error st b s_).connections b2 s2 = _
  rw [add_error_connections]
  rfl

theorem memErr_add_error (st : SCState) (b s_ b' s' : String) :
    memErr (add_error st b s_) b' s' ↔ (b' = b ∧ s' = s_) ∨ memErr st b' s' := by
  unfold memErr add_error
  by_cases hne : (lookupA st.connection_error b).getD [] ≠ []
  · simp only [if_pos hne]
    by_cases hb : b' = b
    · subst hb
      rw [lookupA_insertA_self, Option.getD_some]
      by_cases hmem : s_ ∈ (lookupA st.connection_error b').getD []
      · rw [if_pos hmem]
        constructor
        · intro h
          exact Or.inr h
        · intro h
          rcases h with ⟨_, rfl⟩ | h
          · exact hmem
          · exact h
      · rw [if_neg hmem, List.mem_append, List.mem_singleton]
        tauto
    · rw [lookupA_insertA_ne _ _ _ _ hb]
      tauto
  · simp only [if_neg hne]
    push_neg at hne
    by_cases hb : b' = b
    · subst hb
      rw [lookupA_insertA_self, Option.getD_some, List.mem_singleton, hne]
      simp
    · rw [lookupA_insertA_ne _ _ _ _ hb]
      tauto

theorem inner_fold_connections (st : SCState) (b : String) (ss : List String) :
    (ss.foldl (fun st2 sn => if check_connection st2 b sn then st2
      else add_error st2 b sn) st).connections = st.connections := by
  induction ss generalizing st with
  | nil => rfl
  | cons sn ss ih =>
    rw [List.foldl_cons, ih]
    by_cases h : check_connection st b sn
    · rw [if_pos h]
    · rw [if_neg h, add_error_connections]

theorem check_connection_inner_fold (st : SCState) (b : String) (ss : List String)
    (b2 s2 : String) :
    check_connection (ss.foldl (fun st2 sn => if check_connection st2 b sn then st2
      else add_error st2 b sn) st) b2 s2 = check_connection st b2 s2 := by
  show check_connection_conns (ss.foldl (fun st2 sn => if check_connection st2 b sn then st2
    else add_error st2 b sn) st).connections b2 s2 = _
  rw [inner_fold_connections]
  rfl

theorem memErr_inner_fold (st : SCState) (b : String) (ss : List String) (b' s' : String) :
    memErr (ss.foldl (fun st2 sn => if check_connection st2 b sn then st2
      else add_error st2 b sn) st) b' s' ↔
      memErr st b' s' ∨ (b' = b ∧ s' ∈ ss ∧ check_connection st b s' = false) := by
  induction ss generalizing st with
  | nil => simp
  | cons sn ss ih =>
    rw [List.foldl_cons]
    by_cases hch : check_connection st b sn
    · rw [if_pos hch, ih]
      constructor
      · intro h
        rcases h with h | ⟨rfl, hmem, hfalse⟩
        · exact Or.inl h
        · exact Or.inr ⟨rfl, List.mem_cons_of_mem _ hmem, hfalse⟩
      · intro h
        rcases h with h | ⟨rfl, hmem, hfalse⟩
        · exact Or.inl h
        · rcases List.mem_cons.mp hmem with rfl | hmem'
          · rw [hch] at hfalse
            exact absurd hfalse (by simp)
          · exact Or.inr ⟨rfl, hmem', hfalse⟩
    · rw [if_neg hch, ih]
      simp only [memErr_add_error, check_connection_add_error]
      rw [Bool.not_eq_true] at hch
      constructor
      · intro h
        rcases h with (⟨rfl, rfl⟩ | h) | ⟨rfl, hmem, hfalse⟩
        · exact Or.inr ⟨rfl, List.mem_cons_self _ _, hch⟩
        · exact Or.inl h
        · exact Or.inr ⟨rfl, List.mem_cons_of_mem _ hmem, hfalse⟩
      · intro h
        rcases h with h | ⟨rfl, hmem, hfalse⟩
        · exact Or.inl (Or.inr h)
        · rcases List.mem_cons.mp hmem with rfl | hmem'
          · exact Or.inl (Or.inl ⟨rfl, rfl⟩)
          · exact Or.inr ⟨rfl, hmem', hfalse⟩

theorem memErr_cell_check (st : SCState) (bs ss : List String) (b' s' : String) :
    memErr (cell_check_operation st bs ss) b' s' ↔
      memErr st b' s' ∨ (b' ∈ bs ∧ s' ∈ ss ∧ check_connection st b' s' = false) := by
  unfold cell_check_operation
  induction bs generalizing st with
  | nil => simp
  | cons b bs ih =>
    rw [List.foldl_cons, ih, memErr_inner_fold]
    simp only [check_connection_inner_fold]
    constructor
    · intro h
      rcases h with (h | ⟨rfl, hmem, hfalse⟩) | ⟨hb, hs, hfalse⟩
      · exact Or.inl h
      · exact Or.inr ⟨List.mem_cons_self _ _, hmem, hfalse⟩
      · exact Or.inr ⟨List.mem_cons_of_mem _ hb, hs, hfalse⟩
    · intro h
      rcases h with h | ⟨hb, hs, hfalse⟩
      · exact Or.inl (Or.inl h)
      · rcases List.mem_cons.mp hb with rfl | hb'
        · exact Or.inl (Or.inr ⟨rfl, hs, hfalse⟩)
        · exact Or.inr ⟨hb', hs, hfalse⟩

theorem check_connection_set_connection (st : SCState) (bn sn : SNode) :
    check_connection (set_connection st bn sn) bn.name sn.name = true := by
  unfold check_connection set_connection
  by_cases hne : (lookupA st.connections bn.name).getD [] ≠ []
  · simp only [if_pos hne, check_connection_conns, lookupA_insertA_self, Option.getD_some]
    rw [if_pos (by simp)]
    simp
  · simp only [if_neg hne, check_connection_conns, lookupA_insertA_self, Option.getD_some]
    rw [if_pos (by simp)]
    simp

end SuperpositionLemmas

/-- C6: an edge between one base-type and one secondary-type element records
a connection from the base element's name to the secondary element's name
regardless of which endpoint is source or destination; and the cell scan
reports a (base, secondary) pair co-occurring in a cell as an error exactly
when it has no recorded connection — a connected pair adds no error. -/
theorem superposition_edge_and_cell_scan (st : SCState) (arc : SArc) (src dst : Int)
    (ns nd : SNode) (bs ss : List String) (b s_ : String)
    (hsrc : arc.src_id = some src) (hdst : arc.dst_id = some dst)
    (hsrc0 : src ≠ 0) (hdst0 : dst ≠ 0)
    (hns : lookupA st.nodes src = some ns) (hnd : lookupA st.nodes dst = some nd)
    (hb : b ∈ bs) (hs : s_ ∈ ss) :
    (ns.type_id = st.base_feature_type_id → nd.type_id = st.secondary_feature_type_id →
      check_connection (arc_check_operation st arc) ns.name nd.name = true) ∧
    (ns.type_id = st.secondary_feature_type_id → nd.type_id = st.base_feature_type_id →
      st.base_feature_type_id ≠ st.secondary_feature_type_id →
      check_connection (arc_check_operation st arc) nd.name ns.name = true) ∧
    (memErr (cell_check_operation st bs ss) b s_ ↔
      memErr st b s_ ∨ check_connection st b s_ = false) := by
  refine ⟨?_, ?_, ?_⟩
  · intro h1 h2
    have hred : arc_check_operation st arc = set_connection st ns nd := by
      simp only [arc_check_operation, hsrc, hdst, hns, hnd]
      rw [if_pos ⟨hsrc0, hdst0⟩, if_pos ⟨h1, h2⟩]
    rw [hred]
    exact check_connection_set_connection st ns nd
  · intro h1 h2 hne
    have hred : arc_check_operation st arc = set_connection st nd ns := by
      simp only [arc_check_operation, hsrc, hdst, hns, hnd]
      have hnot : ¬ (ns.type_id = st.base_feature_type_id ∧
          nd.type_id = st.secondary_feature_type_id) := by
        intro hcon
        exact hne (by rw [← hcon.1, h1])
      rw [if_pos ⟨hsrc0, hdst0⟩, if_neg hnot, if_pos ⟨h1, h2⟩]
    rw [hred]
    exact check_connection_set_connection st nd ns
  · rw [memErr_cell_check]
    constructor
    · intro h
      rcases h with h | ⟨_, _, hfalse⟩
      · exact Or.inl h
      · exact Or.inr hfalse
    · intro h
      rcases h with h | hfalse
      · exact Or.inl h
      · exact Or.inr ⟨hb, hs, hfalse⟩

theorem superposition_edge_and_cell_scan_witness :
    ((SArc.mk (some 7) (some 8)).src_id = some 7 ∧
     (SArc.mk (some 7) (some 8)).dst_id = some 8 ∧
     (7 : Int) ≠ 0 ∧ (8 : Int) ≠ 0 ∧
     lookupA exSCState.nodes 7 = some ⟨1, "CatchA"⟩ ∧
     lookupA exSCState.nodes 8 = some ⟨2, "GW1"⟩ ∧
     "CatchA" ∈ ["CatchA"] ∧ "GW1" ∈ ["GW1"]) ∧
    (((SNode.mk 1 "CatchA").type_id = exSCState.base_feature_type_id →
        (SNode.mk 2 "GW1").type_id = exSCState.secondary_feature_type_id →
      check_connection (arc_check_operation exSCState ⟨some 7, some 8⟩)
        (SNode.mk 1 "CatchA").name (SNode.mk 2 "GW1").name = true) ∧
     ((SNode.mk 1 "CatchA").type_id = exSCState.secondary_feature_type_id →
        (SNode.mk 2 "GW1").type_id = exSCState.base_feature_type_id →
        exSCState.base_feature_type_id ≠ exSCState.secondary_feature_type_id →
      check_connection (arc_check_operation exSCState ⟨some 7, some 8⟩)
        (SNode.mk 2 "GW1").name (SNode.mk 1 "CatchA").name = true) ∧
     (memErr (cell_check_operation exSCState ["CatchA"] ["GW1"]) "CatchA" "GW1" ↔
       memErr exSCState "CatchA" "GW1" ∨
         check_connection exSCState "CatchA" "GW1" = false)) :=
  ⟨⟨rfl, rfl, by decide, by decide, by decide, by decide, by decide, by decide⟩,
    superposition_edge_and_cell_scan exSCState ⟨some 7, some 8⟩ 7 8 ⟨1, "CatchA"⟩
      ⟨2, "GW1"⟩ ["CatchA"] ["GW1"] "CatchA" "GW1" rfl rfl (by decide) (by decide)
      (by decide) (by decide) (by decide) (by decide)⟩

section CheckLemmas

theorem foldl_append_error_errors {γ : Type} (l : List γ) (fmsg : γ → String)
    (ft code : String) (s : FState) :
    (l.foldl (fun st p => append_error_f st (fmsg p) ft code) s).errors =
      s.errors ++ l.map (fun p => ⟨fmsg p, ft, code, false⟩) := by
  induction l generalizing s with
  | nil => simp
  | cons p l ih =>
    rw [List.foldl_cons, ih]
    show (s.errors ++ [⟨fmsg p, ft, code, false⟩]) ++ _ = _
    rw [List.append_assoc]
    rfl

theorem foldl_cond_append_error_errors {γ : Type} (l : List γ) (keep : γ → Bool)
    (fmsg : γ → String) (ft code : String) (s : FState) :
    (l.foldl (fun st p => if keep p then st
        else append_error_f st (fmsg p) ft code) s).errors =
      s.errors ++ (l.filter (fun p => !keep p)).map
        (fun p => ⟨fmsg p, ft, code, false⟩) := by
  induction l generalizing s with
  | nil => simp
  | cons p l ih =>
    rw [List.foldl_cons]
    by_cases hk : keep p
    · rw [if_pos hk, ih, List.filter_cons_of_neg (by simp [hk])]
    · rw [if_neg hk, ih, List.filter_cons_of_pos (by simp [hk])]
      show (s.errors ++ [⟨fmsg p, ft, code, false⟩]) ++ _ = _
      rw [List.append_assoc]
      rfl

theorem getErrorsL_append (e1 e2 : List Entry) (code : String) :
    getErrorsL (e1 ++ e2) code = getErrorsL e1 code ++ getErrorsL e2 code := by
  simp [getErrorsL]

theorem getErrorsL_map_same {γ : Type} (l : List γ) (fmsg : γ → String)
    (ft : String) (code : String) :
    getErrorsL (l.map (fun p => ⟨fmsg p, ft, code, false⟩)) code =
      l.map (fun p => ⟨fmsg p, ft, code, false⟩) := by
  unfold getErrorsL
  rw [List.filter_eq_self]
  intro e he
  obtain ⟨p, _, rfl⟩ := List.mem_map.mp he
  simp

end CheckLemmas

/-- C7: `check_names_between_maps` emits exactly one code-"11" ERROR per
feature name referenced by more than one map — the message listing the name
and the joined owning-map set — and none for a name owned by exactly one
map; it returns the has-errors boolean together with the code-"11"
diagnostics. -/
theorem uniqueness_check_exact (cfg : String → Tmpl) (ft : String) (s : FState)
    (hclean : getErrorsL s.errors "11" = []) :
    getErrorsL (check_names_between_maps cfg ft s).1.errors "11" =
      (s.features_by_map.filter (fun p => p.2.length > 1)).map
        (fun p => ⟨msg11 p.1 (String.intercalate ", " p.2), ft, "11", false⟩) ∧
    (check_names_between_maps cfg ft s).2.1 =
      decide ((s.features_by_map.filter (fun p => p.2.length > 1)) ≠ []) ∧
    (check_names_between_maps cfg ft s).2.2 =
      (s.features_by_map.filter (fun p => p.2.length > 1)).map
        (fun p => ⟨msg11 p.1 (String.intercalate ", " p.2), ft, "11", false⟩) := by
  have herr : (check_names_between_maps cfg ft s).1.errors =
      s.errors ++ (s.features_by_map.filter (fun p => p.2.length > 1)).map
        (fun p => ⟨msg11 p.1 (String.intercalate ", " p.2), ft, "11", false⟩) := by
    show ((s.features_by_map.filter (fun p => p.2.length > 1)).foldl
      (fun st p => append_error_f st (msg11 p.1 (String.intercalate ", " p.2)) ft "11")
      s).errors = _
    exact foldl_append_error_errors _ _ _ _ _
  have hget : getErrorsL (check_names_between_maps cfg ft s).1.errors "11" =
      (s.features_by_map.filter (fun p => p.2.length > 1)).map
        (fun p => ⟨msg11 p.1 (String.intercalate ", " p.2), ft, "11", false⟩) := by
    rw [herr, getErrorsL_append, hclean, List.nil_append]
    exact getErrorsL_map_same _ _ _ _
  refine ⟨hget, ?_, ?_⟩
  · show checkErrorsL (check_names_between_maps cfg ft s).1.errors "11" = _
    rw [checkErrorsL, hget]
    simp [List.map_eq_nil_iff]
  · exact hget

theorem uniqueness_check_exact_witness :
    getErrorsL exC7State.errors "11" = [] ∧
    (getErrorsL (check_names_between_maps exCfg "river" exC7State).1.errors "11" =
      (exC7State.features_by_map.filter (fun p => p.2.length > 1)).map
        (fun p => ⟨msg11 p.1 (String.intercalate ", " p.2), "river", "11", false⟩) ∧
    (check_names_between_maps exCfg "river" exC7State).2.1 =
      decide ((exC7State.features_by_map.filter (fun p => p.2.length > 1)) ≠ []) ∧
    (check_names_between_maps exCfg "river" exC7State).2.2 =
      (exC7State.features_by_map.filter (fun p => p.2.length > 1)).map
        (fun p => ⟨msg11 p.1 (String.intercalate ", " p.2), "river", "11", false⟩)) :=
  ⟨by decide, uniqueness_check_exact exCfg "river" exC7State (by decide)⟩

/-- C8: `check_names_with_geo` emits one code-"10" ERROR — naming the
feature and the joined set of maps referencing it — for every feature name
whose reference-topology lookup yields no (truthy) element id, and returns
the has-errors boolean together with the diagnostics filtered to code
"10". -/
theorem existence_check_exact (cfg : String → Tmpl) (geoIds : String → Option Int)
    (ft : String) (s : FState) (hclean : getErrorsL s.errors "10" = []) :
    getErrorsL (check_names_with_geo cfg geoIds ft s).1.errors "10" =
      (s.features_by_map.filter (fun p => !truthyId (geoIds p.1))).map
        (fun p => ⟨msg10 p.1 (String.intercalate ", " p.2), ft, "10", false⟩) ∧
    (check_names_with_geo cfg geoIds ft s).2.1 =
      decide ((s.features_by_map.filter (fun p => !truthyId (geoIds p.1))) ≠ []) ∧
    (check_names_with_geo cfg geoIds ft s).2.2 =
      (s.features_by_map.filter (fun p => !truthyId (geoIds p.1))).map
        (fun p => ⟨msg10 p.1 (String.intercalate ", " p.2), ft, "10", false⟩) := by
  have herr : (check_names_with_geo cfg geoIds ft s).1.errors =
      s.errors ++ (s.features_by_map.filter (fun p => !truthyId (geoIds p.1))).map
        (fun p => ⟨msg10 p.1 (String.intercalate ", " p.2), ft, "10", false⟩) := by
    show (s.features_by_map.foldl (fun st p =>
      if truthyId (geoIds p.1) then st
      else append_error_f st (msg10 p.1 (String.intercalate ", " p.2)) ft "10") s).errors = _
    exact foldl_cond_append_error_errors _ _ _ _ _ _
  have hget : getErrorsL (check_names_with_geo cfg geoIds ft s).1.errors "10" =
      (s.features_by_map.filter (fun p => !truthyId (geoIds p.1))).map
        (fun p => ⟨msg10 p.1 (String.intercalate ", " p.2), ft, "10", false⟩) := by
    rw [herr, getErrorsL_append, hclean, List.nil_append]
    exact getErrorsL_map_same _ _ _ _
  refine ⟨hget, ?_, ?_⟩
  · show checkErrorsL (check_names_with_geo cfg geoIds ft s).1.errors "10" = _
    rw [checkErrorsL, hget]
    simp [List.map_eq_nil_iff]
  · exact hget

theorem existence_check_exact_witness :
    getErrorsL exC8State.errors "10" = [] ∧
    (getErrorsL (check_names_with_geo exCfg exGeoIds "river" exC8State).1.errors "10" =
      (exC8State.features_by_map.filter (fun p => !truthyId (exGeoIds p.1))).map
        (fun p => ⟨msg10 p.1 (String.intercalate ", " p.2), "river", "10", false⟩) ∧
    (check_names_with_geo exCfg exGeoIds "river" exC8State).2.1 =
      decide ((exC8State.features_by_map.filter (fun p => !truthyId (exGeoIds p.1))) ≠ []) ∧
    (check_names_with_geo exCfg exGeoIds "river" exC8State).2.2 =
      (exC8State.features_by_map.filter (fun p => !truthyId (exGeoIds p.1))).map
        (fun p => ⟨msg10 p.1 (String.intercalate ", " p.2), "river", "10", false⟩)) :=
  ⟨by decide, existence_check_exact exCfg exGeoIds "river" exC8State (by decide)⟩

theorem si_step_process_lines (cfg : String → Tmpl) (st : SIState) (op : SIOp) :
    (si_step cfg st op).process_lines =
      st.process_lines ++ (expected_line cfg op).toList := by
  cases op with
  | setProcessLine n f a => rfl
  | setInputParam n v => simp [si_step, expected_line]
  | appendErrorMsg m t w c => simp [si_step, expected_line, summary_append_error]
  | appendErrorMsgs ms t w c =>
    show (ms.foldl (fun s2 m => summary_append_error s2 m t w c) st).process_lines = _
    have h : ∀ st' : SIState, (ms.foldl (fun s2 m => summary_append_error s2 m t w c)
        st').process_lines = st'.process_lines := by
      induction ms with
      | nil => intro st'; rfl
      | cons m ms ih => intro st'; rw [List.foldl_cons, ih]; rfl
    rw [h st]
    simp [expected_line]

/-- C9: the Process Trail is append-only and order-preserving: every
`set_process_line` call appends exactly one line — the named configuration
template expanded with the given named arguments, tagged ERROR when the
failed flag is set and OK otherwise — no operation reorders, removes or
modifies existing lines, and reading the trail returns all lines in append
order. -/
theorem process_trail_append_only (cfg : String → Tmpl) (st : SIState) (ops : List SIOp) :
    get_process_lines (si_run cfg st ops) =
      st.process_lines ++ ops.filterMap (expected_line cfg) := by
  induction ops generalizing st with
  | nil => simp [si_run, get_process_lines]
  | cons op ops ih =>
    show get_process_lines (si_run cfg (si_step cfg st op) ops) = _
    rw [ih, si_step_process_lines, List.append_assoc]
    congr 1
    cases hop : expected_line cfg op with
    | none => simp [List.filterMap_cons, hop]
    | some line => simp [List.filterMap_cons, hop]

/-- C10: querying resolved cell data is total and pure.  An unknown cell
yields `[]` from `get_cell_data_by_map` and `None` from `get_cell_id_data`
(no exception: both accesses are membership-guarded, and neither method
mutates any state); a known cell yields exactly the resolved candidates of
the requested map, in resolved order. -/
theorem query_cell_total (s : FState) (map_name : String) (cell cell' : Cell)
    (r : CellRecord) (habs : cell ∉ keysA s.cell_ids)
    (hknown : lookupA s.cell_ids cell' = some r) :
    get_cell_data_by_map s map_name cell = [] ∧
    get_cell_id_data s cell = none ∧
    get_cell_data_by_map s map_name cell' =
      r.data.filter (fun d => decide (d.map_name = map_name)) ∧
    get_cell_id_data s cell' = some r := by
  have hnone := lookupA_eq_none_of_not_mem_keysA _ _ habs
  refine ⟨?_, ?_, ?_, ?_⟩
  · simp [get_cell_data_by_map, hnone]
  · simp [get_cell_id_data, hnone]
  · simp [get_cell_data_by_map, hknown]
  · simp [get_cell_id_data, hknown]

theorem query_cell_total_witness :
    ((Cell.mk 9 9) ∉ keysA (set_cell_by_criteria exAggState).cell_ids ∧
     lookupA (set_cell_by_criteria exAggState).cell_ids ⟨0, 1⟩ =
       some ⟨1, 6, 0, 1, [⟨"b", 3, 6, "m"⟩]⟩) ∧
    (get_cell_data_by_map (set_cell_by_criteria exAggState) "m" ⟨9, 9⟩ = [] ∧
     get_cell_id_data (set_cell_by_criteria exAggState) ⟨9, 9⟩ = none ∧
     get_cell_data_by_map (set_cell_by_criteria exAggState) "m" ⟨0, 1⟩ =
       (CellRecord.mk 1 6 0 1 [⟨"b", 3, 6, "m"⟩]).data.filter
         (fun d => decide (d.map_name = "m")) ∧
     get_cell_id_data (set_cell_by_criteria exAggState) ⟨0, 1⟩ =
       some ⟨1, 6, 0, 1, [⟨"b", 3, 6, "m"⟩]⟩) :=
  ⟨⟨by decide, by decide⟩,
    query_cell_total (set_cell_by_criteria exAggState) "m" ⟨9, 9⟩ ⟨0, 1⟩
      ⟨1, 6, 0, 1, [⟨"b", 3, 6, "m"⟩]⟩ (by decide) (by decide)⟩

end GeoLink

